import Mathlib

/-!
Verification of the gradient-accumulation core of `train_llama.py`.

The script's core consists of
  * `get_modules` (source lines 187-225): per-family dispatch returning the
    ordered list of tracked linear sub-modules of one transformer layer;
  * the `train` loop (source lines 286-337): allocate a per-(layer, module)
    accumulator table of Python scalars `0.`, run forward/backward over the
    first 100 calibration batches, add the element-wise square of each
    tracked module's gradient into its accumulator, clear all gradients
    after each batch, finally overwrite each module's weight with its
    accumulator and attempt to save the model (save failure caught).

Modelling decisions (shallow embedding):
  * a tensor is a shape together with a flat list of exact rational entries;
    the numeric casts `.float()` and the device moves `.cuda()/.cpu()` do not
    change values in the exact model, so they are identities here;
  * a Python attribute chain such as `layer.self_attn.q_proj` is modelled as a
    lookup of the dotted path in the layer object; a missing attribute is an
    `AttributeError`, modelled with `Except`;
  * the accumulator cells start as the Python float `0.`; `0. + tensor`
    broadcasts, `tensor + tensor` requires equal shapes, and `None ** 2`
    raises `TypeError` — all three behaviours are modelled exactly;
  * `loss.backward()` is a black box that adds a per-batch gradient
    contribution into each parameter's `.grad` slot (PyTorch accumulates into
    an existing gradient and materialises an absent one);
    `optimizer.zero_grad()` clears every `.grad` slot; `optimizer.step()` is
    never called, so the black box never modifies weights;
  * the selector `get_modules` is pure (proved below), so the batch loop is
    modelled over the positionally stable module lists it returns.
-/

namespace TrainLlama

/-- A tensor: a shape and a flat list of exact entries. -/
structure Tensor where
  shape : List Nat
  data : List ℚ
deriving DecidableEq, Repr

/-- `grad ** 2`: element-wise square, shape unchanged. -/
def Tensor.square (t : Tensor) : Tensor :=
  ⟨t.shape, t.data.map (fun x => x * x)⟩

/-- `a + b` on two tensors: defined when the shapes coincide. -/
def Tensor.add (a b : Tensor) : Option Tensor :=
  if a.shape = b.shape then some ⟨a.shape, List.zipWith (· + ·) a.data b.data⟩
  else none

/-- One accumulator cell `grads[i][j]`: initially the Python float `0.`,
after the first addition a tensor. -/
inductive Cell where
  | scalar : ℚ → Cell
  | tensor : Tensor → Cell
deriving DecidableEq, Repr

/-- Python `cell + t` for a tensor `t`: a float broadcasts over the tensor,
two tensors add element-wise when their shapes agree. -/
def Cell.addTensor : Cell → Tensor → Option Cell
  | .scalar s, t => some (.tensor ⟨t.shape, t.data.map (fun x => s + x)⟩)
  | .tensor a, t => (a.add t).map .tensor

/-- A linear sub-module: its weight slot (kept as a cell so the statements
can distinguish a tensor weight from the Python float an accumulator cell
may still hold) and its gradient slot `.grad` (PyTorch: `None` when no
backward pass has touched it). -/
structure Module where
  weight : Cell
  grad : Option Tensor
deriving DecidableEq, Repr

/-- A layer object: a lookup from dotted attribute paths to sub-modules;
`none` models a missing attribute (`AttributeError`). -/
def Layer : Type := String → Option Module

/-- Python attribute access `layer.<path>`: the module, or an
`AttributeError` carrying the missing path. -/
def Layer.attr (layer : Layer) (path : String) : Except String Module :=
  match layer path with
  | some m => Except.ok m
  | none => Except.error path

/-- Source lines 187-225: per-family dispatch returning the ordered list of
tracked sub-modules of one layer.  Each list literal evaluates its attribute
accesses left to right; the first missing attribute aborts with an error. -/
def get_modules (layer : Layer) (is_falcon is_opt is_mpt : Bool) :
    Except String (List Module) :=
  if is_falcon then do
    let a ← layer.attr "self_attention.query"
    let b ← layer.attr "self_attention.key"
    let c ← layer.attr "self_attention.value"
    let d ← layer.attr "self_attention.dense"
    let e ← layer.attr "mlp.dense_h_to_4h"
    let f ← layer.attr "mlp.dense_4h_to_h"
    return [a, b, c, d, e, f]
  else if is_opt then do
    let a ← layer.attr "self_attn.q_proj"
    let b ← layer.attr "self_attn.k_proj"
    let c ← layer.attr "self_attn.v_proj"
    let d ← layer.attr "self_attn.out_proj"
    let e ← layer.attr "fc1"
    let f ← layer.attr "fc2"
    return [a, b, c, d, e, f]
  else if is_mpt then do
    let a ← layer.attr "attn.Wq"
    let b ← layer.attr "attn.Wk"
    let c ← layer.attr "attn.Wv"
    let d ← layer.attr "attn.out_proj"
    let e ← layer.attr "ffn.up_proj"
    let f ← layer.attr "ffn.down_proj"
    return [a, b, c, d, e, f]
  else do
    let a ← layer.attr "self_attn.q_proj"
    let b ← layer.attr "self_attn.k_proj"
    let c ← layer.attr "self_attn.v_proj"
    let d ← layer.attr "self_attn.o_proj"
    let e ← layer.attr "mlp.gate_proj"
    let f ← layer.attr "mlp.up_proj"
    let g ← layer.attr "mlp.down_proj"
    return [a, b, c, d, e, f, g]

/-- The documented per-family ordered attribute lists, written from the
spec's section 4.1 to compare against `get_modules`. -/
def familyAttrs (is_falcon is_opt is_mpt : Bool) : List String :=
  if is_falcon then
    ["self_attention.query", "self_attention.key", "self_attention.value",
     "self_attention.dense", "mlp.dense_h_to_4h", "mlp.dense_4h_to_h"]
  else if is_opt then
    ["self_attn.q_proj", "self_attn.k_proj", "self_attn.v_proj",
     "self_attn.out_proj", "fc1", "fc2"]
  else if is_mpt then
    ["attn.Wq", "attn.Wk", "attn.Wv", "attn.out_proj", "ffn.up_proj",
     "ffn.down_proj"]
  else
    ["self_attn.q_proj", "self_attn.k_proj", "self_attn.v_proj",
     "self_attn.o_proj", "mlp.gate_proj", "mlp.up_proj", "mlp.down_proj"]

/-- Source lines 289-296: the accumulator table `grads`, one row of Python
floats `0.` per layer, row width 6 for falcon/opt/mpt and 7 otherwise. -/
def initGrads (is_falcon is_opt is_mpt : Bool) (layers : List α) :
    List (List Cell) :=
  if is_falcon then layers.map (fun _ => List.replicate 6 (Cell.scalar 0))
  else if is_opt then layers.map (fun _ => List.replicate 6 (Cell.scalar 0))
  else if is_mpt then layers.map (fun _ => List.replicate 6 (Cell.scalar 0))
  else layers.map (fun _ => List.replicate 7 (Cell.scalar 0))

/-- The gradient contributions one backward pass produces: for layer `i`,
tracked module position `j`, either a gradient tensor or `none` when the
pass did not touch that module; plus contributions for the untracked
parameters (e.g. the embedding). -/
structure Batch where
  tracked : List (List (Option Tensor))
  untracked : List (Option Tensor)
deriving Repr, DecidableEq

/-- PyTorch's gradient slot update in `backward()`: an absent contribution
leaves the slot alone, a contribution materialises an empty slot or is added
to the slot's tensor (shape mismatch is a runtime error). -/
def accGrad : Option Tensor → Option Tensor → Except String (Option Tensor)
  | old, none => Except.ok old
  | none, some t => Except.ok (some t)
  | some o, some t =>
    match o.add t with
    | some s => Except.ok (some s)
    | none => Except.error "RuntimeError: grad shape mismatch"

/-- `backward()` over one layer's tracked module list: each module's `.grad`
slot receives that batch's contribution (a missing entry means no
contribution). -/
def backwardModules : List Module → List (Option Tensor) →
    Except String (List Module)
  | [], _ => Except.ok []
  | m :: ms, gs => do
    let g ← accGrad m.grad (gs.headD none)
    let rest ← backwardModules ms gs.tail
    Except.ok ({ m with grad := g } :: rest)

/-- `backward()` over all layers' tracked modules. -/
def backwardLayers : List (List Module) → List (List (Option Tensor)) →
    Except String (List (List Module))
  | [], _ => Except.ok []
  | ms :: rest, gs => do
    let ms2 ← backwardModules ms (gs.headD [])
    let rest2 ← backwardLayers rest gs.tail
    Except.ok (ms2 :: rest2)

/-- Source line 313 and 318 for one module:
`grad = module.weight.grad; grads[i][j] += (grad ** 2).float().cpu()`.
`None ** 2` is a `TypeError`; `grads[i][j]` out of range is an `IndexError`;
the cast to float32 and the move to host memory are value-identities in the
exact model. -/
def accumOne (grads : List (List Cell)) (i j : Nat) (m : Module) :
    Except String (List (List Cell)) :=
  match m.grad with
  | none => Except.error "TypeError: unsupported operand type(s) for ** or pow(): NoneType and int"
  | some g =>
    match grads[i]? with
    | none => Except.error "IndexError: list index out of range"
    | some row =>
      match row[j]? with
      | none => Except.error "IndexError: list index out of range"
      | some c =>
        match c.addTensor g.square with
        | some c2 => Except.ok (grads.set i (row.set j c2))
        | none => Except.error "RuntimeError: accumulator shape mismatch"

/-- Source line 312: `for j, module in enumerate(get_modules(...))`,
accumulating at positions `j, j+1, ...` of row `i`. -/
def accumModules (grads : List (List Cell)) (i j : Nat) :
    List Module → Except String (List (List Cell))
  | [] => Except.ok grads
  | m :: ms => do
    let g2 ← accumOne grads i j m
    accumModules g2 i (j + 1) ms

/-- Source line 311: `for i, layer in enumerate(_layers)`. -/
def accumLayers (grads : List (List Cell)) (i : Nat) :
    List (List Module) → Except String (List (List Cell))
  | [] => Except.ok grads
  | ms :: rest => do
    let g2 ← accumModules grads i 0 ms
    accumLayers g2 (i + 1) rest

/-- Clear the `.grad` slot of every module in a list
(`optimizer.zero_grad()` on those parameters). -/
def zeroGradModules (ms : List Module) : List Module :=
  ms.map (fun m => { m with grad := none })

/-- The mutable state the loop threads: the tracked modules by (layer,
selector position), the untracked parameters, and the accumulator table. -/
structure TrainState where
  layers : List (List Module)
  untracked : List Module
  grads : List (List Cell)
deriving Repr

/-- Source lines 302-320, one batch: forward/backward populates gradients
(weights untouched — no `optimizer.step()` exists), the nested loops add the
squared gradients into `grads`, then `optimizer.zero_grad()` clears every
gradient slot. -/
def batchStep (st : TrainState) (b : Batch) : Except String TrainState := do
  let tr ← backwardLayers st.layers b.tracked
  let un ← backwardModules st.untracked b.untracked
  let gr ← accumLayers st.grads 0 tr
  Except.ok { layers := tr.map zeroGradModules,
              untracked := zeroGradModules un, grads := gr }

/-- The batch loop body iterated over a batch list, strictly in order. -/
def runBatches (st : TrainState) : List Batch → Except String TrainState
  | [] => Except.ok st
  | b :: bs => do
    let st2 ← batchStep st b
    runBatches st2 bs

/-- Source line 298: `for i, data in tqdm(enumerate(dataloader[:100]))` —
the loop consumes the first 100 batches of the loader (fewer if the loader
is shorter); the bound 100 is a literal in the source. -/
def loopBatches (st : TrainState) (dataloader : List Batch) :
    Except String TrainState :=
  runBatches st (dataloader.take 100)

/-- Source lines 323-325 for one module: `module.weight.data = grads[i][j]`
(the gradient slot is untouched).  PyTorch's `Tensor.data` setter accepts
only tensors: assigning a cell that still holds the Python float `0.`
raises a `TypeError`. -/
def finalizeOne (grads : List (List Cell)) (i j : Nat) (m : Module) :
    Except String Module :=
  match grads[i]? with
  | none => Except.error "IndexError: list index out of range"
  | some row =>
    match row[j]? with
    | none => Except.error "IndexError: list index out of range"
    | some (Cell.scalar _) =>
      Except.error "TypeError: Variable data has to be a tensor, but got float"
    | some (Cell.tensor t) => Except.ok { m with weight := Cell.tensor t }

/-- Source line 324: the inner finalizing loop over one layer's modules. -/
def finalizeModules (grads : List (List Cell)) (i j : Nat) :
    List Module → Except String (List Module)
  | [] => Except.ok []
  | m :: ms => do
    let m2 ← finalizeOne grads i j m
    let rest ← finalizeModules grads i (j + 1) ms
    Except.ok (m2 :: rest)

/-- Source line 323: the outer finalizing loop over layers. -/
def finalizeLayers (grads : List (List Cell)) (i : Nat) :
    List (List Module) → Except String (List (List Module))
  | [] => Except.ok []
  | ms :: rest => do
    let ms2 ← finalizeModules grads i 0 ms
    let rest2 ← finalizeLayers grads (i + 1) rest
    Except.ok (ms2 :: rest2)

/-- Source lines 323-325: overwrite every tracked module's weight with its
accumulator cell; untracked parameters and the table itself are untouched. -/
def finalize (st : TrainState) : Except String TrainState := do
  let ls ← finalizeLayers st.grads 0 st.layers
  Except.ok { st with layers := ls }

/-- The selector applied to every layer in model order; the first
`AttributeError` aborts. -/
def selectAll (is_falcon is_opt is_mpt : Bool) :
    List Layer → Except String (List (List Module))
  | [] => Except.ok []
  | l :: ls => do
    let mods ← get_modules l is_falcon is_opt is_mpt
    let rest ← selectAll is_falcon is_opt is_mpt ls
    Except.ok (mods :: rest)

/-- Source lines 286-325, the whole core pipeline: select the tracked
modules per layer, allocate the accumulator table, run the bounded batch
loop, then finalize.  A selector `AttributeError` or a loop error
propagates — nothing in the core catches it. -/
def trainFromLayers (is_falcon is_opt is_mpt : Bool) (ls : List Layer)
    (untracked : List Module) (dataloader : List Batch) :
    Except String TrainState := do
  let layers0 ← selectAll is_falcon is_opt is_mpt ls
  let st ← loopBatches ⟨layers0, untracked, initGrads is_falcon is_opt is_mpt ls⟩
      dataloader
  finalize st

/-- Source lines 334-337: `try: model.save_pretrained(...) except:
print("error")`.  The external save's outcome is a parameter; the function
always returns normally, yielding the unchanged state and the diagnostics
printed. -/
def savePhase (st : TrainState) (saveOutcome : Except String Unit) :
    TrainState × List String :=
  match saveOutcome with
  | Except.ok _ => (st, [])
  | Except.error _ => (st, ["error"])

/-! ### Helper notions used by the statements -/

/-- The per-family accumulator row width of source lines 289-296:
6 for falcon, opt and mpt, 7 for the default (llama-like) family. -/
def familyWidth (is_falcon is_opt is_mpt : Bool) : Nat :=
  if is_falcon then 6 else if is_opt then 6 else if is_mpt then 6 else 7

/-- Sequential attribute lookup along a list of dotted paths: the reference
semantics of evaluating a Python list literal of attribute accesses. -/
def selectByAttrs (layer : Layer) : List String → Except String (List Module)
  | [] => Except.ok []
  | a :: as => do
    let x ← layer.attr a
    let xs ← selectByAttrs layer as
    Except.ok (x :: xs)

/-- The module at (layer `i`, selector position `j`). -/
def modAt (L : List (List Module)) (i j : Nat) : Option Module :=
  L[i]?.bind (fun ms => ms[j]?)

/-- The accumulator cell at (row `i`, column `j`). -/
def cellAt (G : List (List Cell)) (i j : Nat) : Option Cell :=
  G[i]?.bind (fun row => row[j]?)

/-- The gradient contribution of one batch at (layer `i`, position `j`). -/
def contribAt (tr : List (List (Option Tensor))) (i j : Nat) : Option Tensor :=
  (tr.getD i []).getD j none

/-- The shape of a cell: `none` for a Python float. -/
def Cell.shape? : Cell → Option (List Nat)
  | .scalar _ => none
  | .tensor t => some t.shape

/-- Reference accumulation of a sequence of gradient tensors into a cell:
add each element-wise square, in order. -/
def accumSpecCell (c : Cell) : List Tensor → Option Cell
  | [] => some c
  | t :: ts => (c.addTensor t.square).bind (fun c2 => accumSpecCell c2 ts)

/-- The gradient tensors a batch list supplies at cell (i, j); the default
is unreachable under the theorems' hypotheses. -/
def tensorsAt (bs : List Batch) (i j : Nat) : List Tensor :=
  bs.map (fun b => (contribAt b.tracked i j).getD ⟨[], []⟩)

/-- Entry `k` of the gradient of batch `b` at cell (i, j), default 0. -/
def entryAt (b : Batch) (i j k : Nat) : ℚ :=
  ((contribAt b.tracked i j).getD ⟨[], []⟩).data.getD k 0

/-! ### The module selector -/

theorem selectByAttrs_ok_length (layer : Layer) :
    ∀ as mods, selectByAttrs layer as = Except.ok mods →
      mods.length = as.length := by
  intro as
  induction as with
  | nil => intro mods h; cases h; rfl
  | cons a as ih =>
    intro mods h
    simp only [selectByAttrs, bind, Except.bind] at h
    cases ha : layer.attr a with
    | error e => rw [ha] at h; cases h
    | ok x =>
      rw [ha] at h
      cases hs : selectByAttrs layer as with
      | error e => rw [hs] at h; cases h
      | ok xs =>
        rw [hs] at h
        cases h
        simp [ih xs hs]

theorem familyAttrs_length (f o m : Bool) :
    (familyAttrs f o m).length = familyWidth f o m := by
  cases f <;> cases o <;> cases m <;> rfl

theorem get_modules_eq_selectByAttrs (layer : Layer) (f o m : Bool) :
    get_modules layer f o m = selectByAttrs layer (familyAttrs f o m) := by
  cases f
  · cases o
    · cases m
      · simp only [get_modules, familyAttrs, Bool.false_eq_true, if_false,
          selectByAttrs, Layer.attr, bind, Except.bind]
        cases layer "self_attn.q_proj" <;> cases layer "self_attn.k_proj" <;>
          cases layer "self_attn.v_proj" <;> cases layer "self_attn.o_proj" <;>
          cases layer "mlp.gate_proj" <;> cases layer "mlp.up_proj" <;>
          cases layer "mlp.down_proj" <;> rfl
      · simp only [get_modules, familyAttrs, Bool.false_eq_true, if_false,
          if_true, selectByAttrs, Layer.attr, bind, Except.bind]
        cases layer "attn.Wq" <;> cases layer "attn.Wk" <;>
          cases layer "attn.Wv" <;> cases layer "attn.out_proj" <;>
          cases layer "ffn.up_proj" <;> cases layer "ffn.down_proj" <;> rfl
    · simp only [get_modules, familyAttrs, Bool.false_eq_true, if_false,
        if_true, selectByAttrs, Layer.attr, bind, Except.bind]
      cases layer "self_attn.q_proj" <;> cases layer "self_attn.k_proj" <;>
        cases layer "self_attn.v_proj" <;> cases layer "self_attn.out_proj" <;>
        cases layer "fc1" <;> cases layer "fc2" <;> rfl
  · simp only [get_modules, familyAttrs, if_true, selectByAttrs, Layer.attr,
      bind, Except.bind]
    cases layer "self_attention.query" <;> cases layer "self_attention.key" <;>
      cases layer "self_attention.value" <;>
      cases layer "self_attention.dense" <;>
      cases layer "mlp.dense_h_to_4h" <;> cases layer "mlp.dense_4h_to_h" <;>
      rfl

theorem get_modules_ok_length (layer : Layer) (f o m : Bool) (mods : List Module)
    (h : get_modules layer f o m = Except.ok mods) :
    mods.length = familyWidth f o m := by
  rw [get_modules_eq_selectByAttrs] at h
  rw [selectByAttrs_ok_length layer _ mods h, familyAttrs_length]

theorem selectByAttrs_error_of_missing (layer : Layer) :
    ∀ as, (∃ a ∈ as, layer a = none) →
      ∃ e, selectByAttrs layer as = Except.error e := by
  intro as
  induction as with
  | nil => rintro ⟨a, ha, _⟩; cases ha
  | cons a as ih =>
    rintro ⟨b, hb, hnone⟩
    simp only [selectByAttrs, bind, Except.bind]
    rcases List.mem_cons.mp hb with rfl | htail
    · refine ⟨b, ?_⟩
      simp [Layer.attr, hnone]
    · cases ha : layer.attr a with
      | error e => exact ⟨e, rfl⟩
      | ok x =>
        obtain ⟨e, he⟩ := ih ⟨b, htail, hnone⟩
        exact ⟨e, by rw [he]⟩

theorem selectAll_error_of_member (f o m : Bool) (layer : Layer) :
    ∀ ls, layer ∈ ls → (∃ e, get_modules layer f o m = Except.error e) →
      ∃ e, selectAll f o m ls = Except.error e := by
  intro ls
  induction ls with
  | nil => intro h; cases h
  | cons l ls ih =>
    intro hmem herr
    simp only [selectAll, bind, Except.bind]
    cases hl : get_modules l f o m with
    | error e => exact ⟨e, rfl⟩
    | ok mods =>
      rcases List.mem_cons.mp hmem with rfl | htail
      · obtain ⟨e, he⟩ := herr; rw [hl] at he; cases he
      · obtain ⟨e, he⟩ := ih htail herr
        exact ⟨e, by rw [he]⟩

theorem selectAll_ok_spec (f o m : Bool) :
    ∀ ls L0, selectAll f o m ls = Except.ok L0 →
      L0.length = ls.length ∧ ∀ ms ∈ L0, ms.length = familyWidth f o m := by
  intro ls
  induction ls with
  | nil => intro L0 h; cases h; exact ⟨rfl, by intro ms h; cases h⟩
  | cons l ls ih =>
    intro L0 h
    simp only [selectAll, bind, Except.bind] at h
    cases hl : get_modules l f o m with
    | error e => rw [hl] at h; cases h
    | ok mods =>
      rw [hl] at h
      cases hs : selectAll f o m ls with
      | error e => rw [hs] at h; cases h
      | ok rest =>
        rw [hs] at h
        cases h
        obtain ⟨hlen, hall⟩ := ih rest hs
        refine ⟨by simp [hlen], ?_⟩
        intro ms hms
        rcases List.mem_cons.mp hms with rfl | htail
        · exact get_modules_ok_length l f o m ms hl
        · exact hall ms htail

/-! ### Claim theorems: the module selector and the accumulator table -/

/-- **C2**: for every layer object and each of the four family flags,
`get_modules` returns exactly the sequential lookup of the documented
ordered attribute list (falcon/opt/mpt: 6 entries, default llama-like: 7),
and — being a pure function — calling it twice on the same layer with the
same family yields the identical, positionally stable result. -/
theorem get_modules_returns_documented_lists (layer : Layer) (f o m : Bool) :
    get_modules layer f o m = selectByAttrs layer (familyAttrs f o m) ∧
    (familyAttrs f o m).length = familyWidth f o m ∧
    get_modules layer f o m = get_modules layer f o m :=
  ⟨get_modules_eq_selectByAttrs layer f o m, familyAttrs_length f o m, rfl⟩

/-- **C3**: at INIT the accumulator table has exactly one row per layer,
every row is zero-initialised and has the per-family width (6 for
falcon/opt/mpt, 7 for the default family), and that width equals the length
of any module list the selector successfully returns. -/
theorem accumulator_table_dimensions (f o m : Bool) (ls : List Layer) :
    (initGrads f o m ls).length = ls.length ∧
    (∀ row ∈ initGrads f o m ls,
      row.length = familyWidth f o m ∧ ∀ c ∈ row, c = Cell.scalar 0) ∧
    (∀ l mods, get_modules l f o m = Except.ok mods →
      mods.length = familyWidth f o m) := by
  refine ⟨?_, ?_, fun l mods h => get_modules_ok_length l f o m mods h⟩
  · unfold initGrads
    cases f <;> cases o <;> cases m <;> simp
  · intro row hrow
    unfold initGrads at hrow
    have : row = List.replicate (familyWidth f o m) (Cell.scalar 0) := by
      cases f <;> cases o <;> cases m <;>
        · obtain ⟨a, -, h⟩ := List.mem_map.mp hrow
          simpa [familyWidth] using h.symm
    subst this
    exact ⟨List.length_replicate _ _, fun c hc => List.eq_of_mem_replicate hc⟩

/-- A layer exposing every attribute of every family, used by witnesses. -/
def omniLayer (w : Tensor) : Layer := fun _ => some ⟨Cell.tensor w, none⟩

/-- A layer exposing no attribute at all, used by counter-witnesses. -/
def bareLayer : Layer := fun _ => none

/-- Witness for **C3** at a concrete family, layer list and selector call. -/
theorem accumulator_table_dimensions_witness :
    (initGrads false false false [bareLayer]).length = [bareLayer].length ∧
    (List.replicate 7 (Module.mk (Cell.tensor ⟨[1], [2]⟩) none)).length =
      familyWidth false false false :=
  ⟨(accumulator_table_dimensions false false false [bareLayer]).1,
   (accumulator_table_dimensions false false false [bareLayer]).2.2
     (omniLayer ⟨[1], [2]⟩)
     (List.replicate 7 ⟨Cell.tensor ⟨[1], [2]⟩, none⟩) rfl⟩

/-- **C8**: a layer that lacks an expected attribute for its declared family
makes the selector surface an `AttributeError` immediately, and the
pipeline — which catches nothing — propagates it: the whole run returns
that error and no final state is ever produced or persisted. -/
theorem missing_attribute_aborts (f o m : Bool) (layer : Layer)
    (ls : List Layer) (un : List Module) (dl : List Batch)
    (hmem : layer ∈ ls) (hmiss : ∃ a ∈ familyAttrs f o m, layer a = none) :
    (∃ e, get_modules layer f o m = Except.error e) ∧
    (∃ e, trainFromLayers f o m ls un dl = Except.error e) := by
  have hgm : ∃ e, get_modules layer f o m = Except.error e := by
    rw [get_modules_eq_selectByAttrs]
    exact selectByAttrs_error_of_missing layer _ hmiss
  refine ⟨hgm, ?_⟩
  obtain ⟨e, he⟩ := selectAll_error_of_member f o m layer ls hmem hgm
  exact ⟨e, by simp [trainFromLayers, he, bind, Except.bind]⟩

/-- Witness for **C8**: an attribute-free layer under the default family. -/
theorem missing_attribute_aborts_witness :
    (∃ e, get_modules bareLayer false false false = Except.error e) ∧
    (∃ e, trainFromLayers false false false [bareLayer] [] [] =
      Except.error e) :=
  missing_attribute_aborts false false false bareLayer [bareLayer] [] []
    (List.mem_singleton.mpr rfl) ⟨"self_attn.q_proj", by decide, rfl⟩

/-- **C9**: the final save sits in `try/except` — on a save failure the
in-memory state is returned unchanged and the only effect is the printed
diagnostic `"error"`; on success nothing is printed.  Either way the
function returns normally: a persistence failure is not fatal. -/
theorem save_failure_not_fatal (st : TrainState)
    (outcome : Except String Unit) :
    (savePhase st outcome).1 = st ∧
    (∀ e, outcome = Except.error e → (savePhase st outcome).2 = ["error"]) ∧
    (outcome = Except.ok () → (savePhase st outcome).2 = []) := by
  cases outcome <;> simp [savePhase]

/-- Witness for **C9** at a failing save outcome. -/
theorem save_failure_not_fatal_witness :
    (savePhase ⟨[], [], []⟩ (Except.error "disk full")).1 = ⟨[], [], []⟩ ∧
    (savePhase ⟨[], [], []⟩ (Except.error "disk full")).2 = ["error"] :=
  ⟨(save_failure_not_fatal ⟨[], [], []⟩ (Except.error "disk full")).1,
   (save_failure_not_fatal ⟨[], [], []⟩ (Except.error "disk full")).2.1
     "disk full" rfl⟩

/-! ### Accumulation: row-level reformulation and correctness -/

/-- Compatibility of a cell with a gradient shape: a Python float is
compatible with anything, a tensor only with its own shape. -/
def cellCompat (c : Cell) (s : List Nat) : Prop :=
  ∀ t, c = Cell.tensor t → t.shape = s

theorem addTensor_of_compat {c : Cell} {s : List Nat} {g : Tensor}
    (hc : cellCompat c s) (hg : g.shape = s) :
    ∃ c2, c.addTensor g.square = some c2 ∧ cellCompat c2 s := by
  cases c with
  | scalar q =>
    refine ⟨_, rfl, ?_⟩
    intro t ht
    cases ht
    simpa [Tensor.square] using hg
  | tensor a =>
    have ha : a.shape = s := hc a rfl
    have hsq : a.shape = g.square.shape := by simp [Tensor.square, ha, hg]
    refine ⟨Cell.tensor ⟨a.shape, List.zipWith (· + ·) a.data g.square.data⟩, ?_, ?_⟩
    · simp [Cell.addTensor, Tensor.add, if_pos hsq]
    · intro t ht
      cases ht
      simpa using ha

/-- The inner accumulation loop acting on one accumulator row alone. -/
def rowRun (row : List Cell) (j : Nat) : List Module → Except String (List Cell)
  | [] => Except.ok row
  | m :: ms =>
    match m.grad with
    | none => Except.error "TypeError: unsupported operand type(s) for ** or pow(): NoneType and int"
    | some g =>
      match row[j]? with
      | none => Except.error "IndexError: list index out of range"
      | some c =>
        match c.addTensor g.square with
        | some c2 => rowRun (row.set j c2) (j + 1) ms
        | none => Except.error "RuntimeError: accumulator shape mismatch"

theorem set_self_of_getElem? {l : List α} {i : Nat} {a : α}
    (h : l[i]? = some a) : l.set i a = l := by
  obtain ⟨hlt, hval⟩ := List.getElem?_eq_some_iff.mp h
  apply List.ext_getElem?
  intro n
  rcases eq_or_ne i n with rfl | hne
  · rw [List.getElem?_set_self hlt, h]
  · rw [List.getElem?_set_ne hne]

theorem accumModules_eq_rowRun :
    ∀ (ms : List Module) (grads : List (List Cell)) (i j : Nat)
      (row : List Cell), grads[i]? = some row →
      accumModules grads i j ms = (rowRun row j ms).map (fun r => grads.set i r) := by
  intro ms
  induction ms with
  | nil =>
    intro grads i j row h
    simp [accumModules, rowRun, Except.map, set_self_of_getElem? h]
  | cons m ms ih =>
    intro grads i j row h
    have hi : i < grads.length := (List.getElem?_eq_some_iff.mp h).1
    cases hg : m.grad with
    | none => simp [accumModules, accumOne, rowRun, hg, Except.map, bind, Except.bind]
    | some g =>
      cases hc : row[j]? with
      | none =>
        simp [accumModules, accumOne, rowRun, hg, h, hc, Except.map, bind, Except.bind]
      | some c =>
        cases hadd : c.addTensor g.square with
        | none =>
          simp [accumModules, accumOne, rowRun, hg, h, hc, hadd, Except.map,
            bind, Except.bind]
        | some c2 =>
          have hset : (grads.set i (row.set j c2))[i]? = some (row.set j c2) :=
            List.getElem?_set_self (by simpa using hi)
          have := ih (grads.set i (row.set j c2)) i (j + 1) (row.set j c2) hset
          simp only [accumModules, accumOne, rowRun, hg, h, hc, hadd, bind,
            Except.bind, this]
          cases rowRun (row.set j c2) (j + 1) ms with
          | error e => simp [Except.map]
          | ok r => simp [Except.map, List.set_set]

/-- The cell value position `j + t` of a row holds after the inner loop
processed module `t` of `ms`: old cell plus element-wise squared gradient. -/
def cellAfter (row : List Cell) (ms : List Module) (j t : Nat) : Option Cell :=
  (row[j + t]?).bind fun c => (ms[t]?).bind fun m =>
    m.grad.bind fun g => c.addTensor g.square

theorem cellAfter_set_shift {row : List Cell} {ms : List Module} {m : Module}
    {c2 : Cell} {j t : Nat} :
    cellAfter (row.set j c2) ms (j + 1) t = cellAfter row (m :: ms) j (t + 1) := by
  have hidx : j + 1 + t = j + (t + 1) := by omega
  have hne : j ≠ j + 1 + t := by omega
  simp [cellAfter, hidx, List.getElem?_set_ne (hidx ▸ hne)]

theorem rowRun_ok :
    ∀ (ms : List Module) (row : List Cell) (j : Nat),
      (∀ t, t < ms.length → (cellAfter row ms j t).isSome) →
      ∃ row', rowRun row j ms = Except.ok row' ∧ row'.length = row.length ∧
        (∀ t, t < ms.length → row'[j + t]? = cellAfter row ms j t) ∧
        (∀ p, p < j → row'[p]? = row[p]?) ∧
        (∀ p, j + ms.length ≤ p → row'[p]? = row[p]?) := by
  intro ms
  induction ms with
  | nil =>
    intro row j _
    exact ⟨row, rfl, rfl, fun t ht => absurd ht (Nat.not_lt_zero t),
      fun _ _ => rfl, fun _ _ => rfl⟩
  | cons m ms ih =>
    intro row j hyp
    have h0 := hyp 0 (Nat.succ_pos _)
    rw [Option.isSome_iff_exists] at h0
    obtain ⟨c2, hc2⟩ := h0
    simp only [cellAfter, Nat.add_zero, List.getElem?_cons_zero,
      Option.some_bind] at hc2
    cases hrj : row[j]? with
    | none => rw [hrj] at hc2; cases hc2
    | some c =>
      rw [hrj] at hc2
      simp only [Option.some_bind] at hc2
      cases hg : m.grad with
      | none => rw [hg] at hc2; cases hc2
      | some g =>
        rw [hg] at hc2
        simp only [Option.some_bind] at hc2
        have hjlt : j < row.length := (List.getElem?_eq_some_iff.mp hrj).1
        have hstep : ∀ t, t < ms.length →
            (cellAfter (row.set j c2) ms (j + 1) t).isSome := by
          intro t ht
          rw [cellAfter_set_shift (m := m)]
          exact hyp (t + 1) (Nat.succ_lt_succ ht)
        obtain ⟨row', hok, hlen, hmain, hleft, hright⟩ :=
          ih (row.set j c2) (j + 1) hstep
        refine ⟨row', ?_, ?_, ?_, ?_, ?_⟩
        · simp [rowRun, hg, hrj, hc2, hok]
        · simpa using hlen
        · intro t ht
          cases t with
          | zero =>
            have : row'[j]? = (row.set j c2)[j]? := hleft j (Nat.lt_succ_self j)
            rw [Nat.add_zero, this, List.getElem?_set_self hjlt]
            simp [cellAfter, hrj, hg, hc2]
          | succ s =>
            have hs : s < ms.length := Nat.lt_of_succ_lt_succ ht
            have := hmain s hs
            rw [cellAfter_set_shift (m := m)] at this
            have hidx : j + 1 + s = j + (s + 1) := by omega
            rw [← hidx]
            exact this
        · intro p hp
          have h1 : row'[p]? = (row.set j c2)[p]? := hleft p (by omega)
          rw [h1, List.getElem?_set_ne (by omega)]
        · intro p hp
          have hp' : j + 1 + ms.length ≤ p := by
            simp only [List.length_cons] at hp; omega
          have h1 : row'[p]? = (row.set j c2)[p]? := hright p hp'
          rw [h1, List.getElem?_set_ne (by omega)]

theorem accumLayers_ok :
    ∀ (L : List (List Module)) (grads : List (List Cell)) (i : Nat),
      (∀ r, r < L.length → ∃ row, grads[i + r]? = some row ∧
        ∀ t, t < (L.getD r []).length →
          (cellAfter row (L.getD r []) 0 t).isSome) →
      ∃ grads', accumLayers grads i L = Except.ok grads' ∧
        grads'.length = grads.length ∧
        (∀ q, q < i → grads'[q]? = grads[q]?) ∧
        (∀ q, i + L.length ≤ q → grads'[q]? = grads[q]?) ∧
        (∀ r, r < L.length → ∃ row row', grads[i + r]? = some row ∧
          grads'[i + r]? = some row' ∧ row'.length = row.length ∧
          (∀ t, t < (L.getD r []).length →
            row'[t]? = cellAfter row (L.getD r []) 0 t) ∧
          (∀ p, (L.getD r []).length ≤ p → row'[p]? = row[p]?)) := by
  intro L
  induction L with
  | nil =>
    intro grads i _
    exact ⟨grads, rfl, rfl, fun _ _ => rfl, fun _ _ => rfl,
      fun r hr => absurd hr (Nat.not_lt_zero r)⟩
  | cons ms rest ih =>
    intro grads i hyp
    obtain ⟨row, hrow, hcells⟩ := hyp 0 (Nat.succ_pos _)
    rw [Nat.add_zero] at hrow
    simp only [List.getD_cons_zero] at hcells
    have hi : i < grads.length := (List.getElem?_eq_some_iff.mp hrow).1
    obtain ⟨row', hok, hlen, hmain, _, hright⟩ := rowRun_ok ms row 0 hcells
    have heq := accumModules_eq_rowRun ms grads i 0 row hrow
    have hstep : accumModules grads i 0 ms = Except.ok (grads.set i row') := by
      rw [heq, hok]; rfl
    have hyp2 : ∀ r, r < rest.length → ∃ rw2, (grads.set i row')[i + 1 + r]? = some rw2 ∧
        ∀ t, t < (rest.getD r []).length →
          (cellAfter rw2 (rest.getD r []) 0 t).isSome := by
      intro r hr
      obtain ⟨rw2, hrw2, hc2⟩ := hyp (r + 1) (Nat.succ_lt_succ hr)
      simp only [List.getD_cons_succ] at hc2
      have hidx : i + (r + 1) = i + 1 + r := by omega
      refine ⟨rw2, ?_, hc2⟩
      rw [List.getElem?_set_ne (by omega), ← hidx, hrw2]
    obtain ⟨grads'', hok2, hlen2, hleft2, hright2, hmain2⟩ :=
      ih (grads.set i row') (i + 1) hyp2
    refine ⟨grads'', ?_, ?_, ?_, ?_, ?_⟩
    · simp only [accumLayers, bind, Except.bind, hstep, hok2]
    · simpa using hlen2
    · intro q hq
      rw [hleft2 q (by omega), List.getElem?_set_ne (by omega)]
    · intro q hq
      have hq' : i + 1 + rest.length ≤ q := by
        simp only [List.length_cons] at hq; omega
      rw [hright2 q hq', List.getElem?_set_ne (by omega)]
    · intro r hr
      cases r with
      | zero =>
        refine ⟨row, row', by rw [Nat.add_zero, hrow], ?_, hlen, ?_, ?_⟩
        · rw [Nat.add_zero, hleft2 i (Nat.lt_succ_self i),
            List.getElem?_set_self hi]
        · intro t ht
          simp only [List.getD_cons_zero] at ht ⊢
          have := hmain t ht
          rwa [Nat.zero_add] at this
        · intro p hp
          simp only [List.getD_cons_zero] at hp
          exact hright p (by omega)
      | succ s =>
        have hs : s < rest.length := by
          simp only [List.length_cons] at hr; omega
        obtain ⟨rw2, rw2', h1, h2, h3, h4, h5⟩ := hmain2 s hs
        have hidx : i + 1 + s = i + (s + 1) := by omega
        rw [hidx] at h1 h2
        rw [List.getElem?_set_ne (by omega)] at h1
        exact ⟨rw2, rw2', h1, h2, h3, by simpa using h4, by simpa using h5⟩

/-! ### The backward pass and gradient clearing -/

theorem accGrad_none_left (x : Option Tensor) : accGrad none x = Except.ok x := by
  cases x <;> rfl

theorem headD_none_eq_getD (gs : List (Option Tensor)) :
    gs.headD none = gs.getD 0 none := by cases gs <;> rfl

theorem tail_getD_eq (gs : List (Option Tensor)) (t : Nat) :
    gs.tail.getD t none = gs.getD (t + 1) none := by cases gs <;> rfl

theorem headD_nil_eq_getD (tr : List (List (Option Tensor))) :
    tr.headD [] = tr.getD 0 [] := by cases tr <;> rfl

theorem tail_getD_nil_eq (tr : List (List (Option Tensor))) (i : Nat) :
    tr.tail.getD i [] = tr.getD (i + 1) [] := by cases tr <;> rfl

theorem Module.eta_none {m : Module} (h : m.grad = none) :
    Module.mk m.weight none = m := by
  cases m with
  | mk w g => cases h; rfl

theorem backwardModules_of_none :
    ∀ (ms : List Module) (gs : List (Option Tensor)),
      (∀ mm ∈ ms, mm.grad = none) →
      ∃ ms', backwardModules ms gs = Except.ok ms' ∧
        ms'.length = ms.length ∧
        ∀ t : Nat, ms'[t]? =
          (ms[t]?).map (fun mm => (⟨mm.weight, gs.getD t none⟩ : Module)) := by
  intro ms
  induction ms with
  | nil => exact fun gs _ => ⟨[], rfl, rfl, fun t => by simp⟩
  | cons m ms ih =>
    intro gs hnone
    have hm : m.grad = none := hnone m (List.mem_cons_self m ms)
    obtain ⟨rest, hrest, hlen, hpt⟩ :=
      ih gs.tail (fun mm hmm => hnone mm (List.mem_cons_of_mem m hmm))
    refine ⟨⟨m.weight, gs.headD none⟩ :: rest, ?_, by simp [hlen], ?_⟩
    · simp [backwardModules, hm, accGrad_none_left, hrest, bind, Except.bind]
    · intro t
      cases t with
      | zero => cases gs <;> simp
      | succ s =>
        simp only [List.getElem?_cons_succ, hpt s]
        cases gs <;> rfl

theorem backwardLayers_of_none :
    ∀ (L : List (List Module)) (tr : List (List (Option Tensor))),
      (∀ ms ∈ L, ∀ mm ∈ ms, mm.grad = none) →
      ∃ L', backwardLayers L tr = Except.ok L' ∧
        L'.length = L.length ∧
        (∀ i : Nat, (L'[i]?).map List.length = (L[i]?).map List.length) ∧
        ∀ i j : Nat, modAt L' i j =
          (modAt L i j).map (fun mm => (⟨mm.weight, contribAt tr i j⟩ : Module)) := by
  intro L
  induction L with
  | nil => exact fun tr _ => ⟨[], rfl, rfl, fun i => by simp, fun i j => by simp [modAt]⟩
  | cons ms rest ih =>
    intro tr hnone
    obtain ⟨ms', hms, hmslen, hmspt⟩ :=
      backwardModules_of_none ms (tr.headD [])
        (hnone ms (List.mem_cons_self ms rest))
    obtain ⟨rest', hrest, hrestlen, hrowlen, hrestpt⟩ :=
      ih tr.tail (fun ms2 hms2 => hnone ms2 (List.mem_cons_of_mem ms hms2))
    refine ⟨ms' :: rest', ?_, by simp [hrestlen], ?_, ?_⟩
    · simp only [backwardLayers, hms, hrest, bind, Except.bind]
    · intro i
      cases i with
      | zero => simp [hmslen]
      | succ s => simp [hrowlen s]
    · intro i j
      cases i with
      | zero =>
        simp only [modAt, List.getElem?_cons_zero, Option.some_bind]
        rw [hmspt j]
        cases tr <;> rfl
      | succ s =>
        simp only [modAt, List.getElem?_cons_succ]
        have := hrestpt s j
        simp only [modAt] at this
        rw [this]
        cases tr <;> rfl

theorem zeroGrad_backward_cancel :
    ∀ (ms : List Module) (gs : List (Option Tensor)) (ms' : List Module),
      (∀ mm ∈ ms, mm.grad = none) →
      backwardModules ms gs = Except.ok ms' →
      zeroGradModules ms' = ms := by
  intro ms
  induction ms with
  | nil =>
    intro gs ms' _ h
    cases h
    rfl
  | cons m ms ih =>
    intro gs ms' hnone h
    have hm : m.grad = none := hnone m (List.mem_cons_self m ms)
    simp only [backwardModules, hm, accGrad_none_left, bind, Except.bind] at h
    cases hrest : backwardModules ms gs.tail with
    | error e => rw [hrest] at h; cases h
    | ok rest =>
      rw [hrest] at h
      cases h
      have := ih gs.tail rest
        (fun mm hmm => hnone mm (List.mem_cons_of_mem m hmm)) hrest
      simp [zeroGradModules] at this ⊢
      exact ⟨Module.eta_none hm, this⟩

theorem zeroGrad_backwardLayers_cancel :
    ∀ (L : List (List Module)) (tr : List (List (Option Tensor)))
      (L' : List (List Module)),
      (∀ ms ∈ L, ∀ mm ∈ ms, mm.grad = none) →
      backwardLayers L tr = Except.ok L' →
      L'.map zeroGradModules = L := by
  intro L
  induction L with
  | nil =>
    intro tr L' _ h
    cases h
    rfl
  | cons ms rest ih =>
    intro tr L' hnone h
    simp only [backwardLayers, bind, Except.bind] at h
    cases hms : backwardModules ms (tr.headD []) with
    | error e => rw [hms] at h; cases h
    | ok ms' =>
      rw [hms] at h
      cases hrest : backwardLayers rest tr.tail with
      | error e => rw [hrest] at h; cases h
      | ok rest' =>
        rw [hrest] at h
        cases h
        have h1 := zeroGrad_backward_cancel ms (tr.headD []) ms'
          (hnone ms (List.mem_cons_self ms rest)) hms
        have h2 := ih tr.tail rest'
          (fun ms2 hms2 => hnone ms2 (List.mem_cons_of_mem ms hms2)) hrest
        simp [h1, h2]

/-! ### One batch, and the whole bounded loop -/

theorem getD_eq_of_getElem? {α : Type _} {L : List α} {i : Nat} {x : α}
    (d : α) (h : L[i]? = some x) : L.getD i d = x := by
  simp [List.getD_eq_getElem?_getD, h]

theorem getElem?_eq_getD {α : Type _} {L : List α} {i : Nat} (d : α)
    (hi : i < L.length) : L[i]? = some (L.getD i d) := by
  rw [List.getElem?_eq_getElem hi]
  simp [List.getD_eq_getElem?_getD, List.getElem?_eq_getElem hi]

theorem modAt_eq_row {L : List (List Module)} {i : Nat} (hi : i < L.length)
    (j : Nat) : modAt L i j = (L.getD i [])[j]? := by
  unfold modAt
  rw [getElem?_eq_getD [] hi, Option.some_bind]

theorem batchStep_ok (st : TrainState) (b : Batch) (S : Nat → Nat → List Nat)
    (hL : ∀ ms ∈ st.layers, ∀ mm ∈ ms, mm.grad = none)
    (hU : ∀ mm ∈ st.untracked, mm.grad = none)
    (hG : ∀ i, i < st.layers.length → ∃ row, st.grads[i]? = some row ∧
      ∀ j, j < (st.layers.getD i []).length →
        ∃ c, row[j]? = some c ∧ cellCompat c (S i j))
    (hB : ∀ i, i < st.layers.length → ∀ j, j < (st.layers.getD i []).length →
      (contribAt b.tracked i j).map Tensor.shape = some (S i j)) :
    ∃ G1, batchStep st b = Except.ok ⟨st.layers, st.untracked, G1⟩ ∧
      G1.length = st.grads.length ∧
      (∀ q, st.layers.length ≤ q → G1[q]? = st.grads[q]?) ∧
      (∀ i, i < st.layers.length → ∃ row row1,
        st.grads[i]? = some row ∧ G1[i]? = some row1 ∧
        row1.length = row.length ∧
        (∀ j, j < (st.layers.getD i []).length → ∃ c g c1,
          row[j]? = some c ∧ contribAt b.tracked i j = some g ∧
          c.addTensor g.square = some c1 ∧ row1[j]? = some c1 ∧
          cellCompat c1 (S i j)) ∧
        (∀ p, (st.layers.getD i []).length ≤ p → row1[p]? = row[p]?)) := by
  obtain ⟨L1, hbw, hL1len, hL1rows, hL1pt⟩ :=
    backwardLayers_of_none st.layers b.tracked hL
  obtain ⟨U1, hbwu, -, -⟩ := backwardModules_of_none st.untracked b.untracked hU
  have hwidth : ∀ r, r < st.layers.length →
      (L1.getD r []).length = (st.layers.getD r []).length := by
    intro r hr
    have h1 := getElem?_eq_getD ([] : List Module) (hL1len ▸ hr)
    have h2 := getElem?_eq_getD ([] : List Module) hr
    have := hL1rows r
    rw [h1, h2] at this
    simpa using this
  have haccumHyp : ∀ r, r < L1.length → ∃ row, st.grads[0 + r]? = some row ∧
      ∀ t, t < (L1.getD r []).length →
        (cellAfter row (L1.getD r []) 0 t).isSome := by
    intro r hr
    have hr' : r < st.layers.length := hL1len ▸ hr
    obtain ⟨row, hrow, hcells⟩ := hG r hr'
    refine ⟨row, by simpa using hrow, ?_⟩
    intro t ht
    have ht' : t < (st.layers.getD r []).length := by rw [← hwidth r hr']; exact ht
    obtain ⟨c, hc, hcompat⟩ := hcells t ht'
    have hmod : modAt st.layers r t = some ((st.layers.getD r []).getD t ⟨Cell.scalar 0, none⟩) := by
      rw [modAt_eq_row hr']
      exact getElem?_eq_getD _ ht'
    have hcontrib := hB r hr' t ht'
    obtain ⟨g, hg, hgs⟩ : ∃ g, contribAt b.tracked r t = some g ∧ g.shape = S r t := by
      cases hcg : contribAt b.tracked r t with
      | none => rw [hcg] at hcontrib; cases hcontrib
      | some g =>
        rw [hcg] at hcontrib
        exact ⟨g, rfl, by simpa using hcontrib⟩
    obtain ⟨c1, hc1, -⟩ := addTensor_of_compat hcompat hgs
    have hL1mod : (L1.getD r [])[t]? = some
        ⟨((st.layers.getD r []).getD t ⟨Cell.scalar 0, none⟩).weight, some g⟩ := by
      rw [← modAt_eq_row hr, hL1pt r t, hmod]
      simp [hg]
    simp only [cellAfter, Nat.zero_add, hc, hL1mod, Option.some_bind]
    simp [hc1]
  obtain ⟨G1, haccum, hG1len, hleft, hright, hmain⟩ :=
    accumLayers_ok L1 st.grads 0 haccumHyp
  have hzl : L1.map zeroGradModules = st.layers :=
    zeroGrad_backwardLayers_cancel st.layers b.tracked L1 hL hbw
  have hzu : zeroGradModules U1 = st.untracked :=
    zeroGrad_backward_cancel st.untracked b.untracked U1 hU hbwu
  refine ⟨G1, ?_, hG1len, ?_, ?_⟩
  · simp only [batchStep, hbw, hbwu, haccum, bind, Except.bind, hzl, hzu]
  · intro q hq
    exact hright q (by simpa [hL1len] using hq)
  · intro i hi
    have hi1 : i < L1.length := hL1len ▸ hi
    obtain ⟨row, row1, hrow, hrow1, hlen1, hcell1, hframe1⟩ := hmain i hi1
    rw [Nat.zero_add] at hrow hrow1
    refine ⟨row, row1, hrow, hrow1, hlen1, ?_, ?_⟩
    · intro j hj
      have hj1 : j < (L1.getD i []).length := by rw [hwidth i hi]; exact hj
      obtain ⟨rowx, hrowx, hcells⟩ := hG i hi
      rw [hrow] at hrowx
      cases hrowx
      obtain ⟨c, hc, hcompat⟩ := hcells j hj
      have hcontrib := hB i hi j hj
      obtain ⟨g, hg, hgs⟩ : ∃ g, contribAt b.tracked i j = some g ∧ g.shape = S i j := by
        cases hcg : contribAt b.tracked i j with
        | none => rw [hcg] at hcontrib; cases hcontrib
        | some g =>
          rw [hcg] at hcontrib
          exact ⟨g, rfl, by simpa using hcontrib⟩
      obtain ⟨c1, hc1, hcompat1⟩ := addTensor_of_compat hcompat hgs
      refine ⟨c, g, c1, hc, hg, hc1, ?_, hcompat1⟩
      have hmod : modAt st.layers i j = some ((st.layers.getD i []).getD j ⟨Cell.scalar 0, none⟩) := by
        rw [modAt_eq_row hi]
        exact getElem?_eq_getD _ hj
      have hL1mod : (L1.getD i [])[j]? = some
          ⟨((st.layers.getD i []).getD j ⟨Cell.scalar 0, none⟩).weight, some g⟩ := by
        rw [← modAt_eq_row hi1, hL1pt i j, hmod]
        simp [hg]
      have := hcell1 j hj1
      rw [this]
      simp only [cellAfter, Nat.zero_add, hc, hL1mod, Option.some_bind]
      simp [hc1]
    · intro p hp
      exact hframe1 p (by rw [hwidth i hi]; exact hp)

theorem runBatches_ok :
    ∀ (bs : List Batch) (st : TrainState) (S : Nat → Nat → List Nat),
      (∀ ms ∈ st.layers, ∀ mm ∈ ms, mm.grad = none) →
      (∀ mm ∈ st.untracked, mm.grad = none) →
      (∀ i, i < st.layers.length → ∃ row, st.grads[i]? = some row ∧
        ∀ j, j < (st.layers.getD i []).length →
          ∃ c, row[j]? = some c ∧ cellCompat c (S i j)) →
      (∀ b ∈ bs, ∀ i, i < st.layers.length →
        ∀ j, j < (st.layers.getD i []).length →
          (contribAt b.tracked i j).map Tensor.shape = some (S i j)) →
      ∃ st', runBatches st bs = Except.ok st' ∧
        st'.layers = st.layers ∧ st'.untracked = st.untracked ∧
        st'.grads.length = st.grads.length ∧
        (∀ q, st.layers.length ≤ q → st'.grads[q]? = st.grads[q]?) ∧
        (∀ i, i < st.layers.length → ∀ j, j < (st.layers.getD i []).length →
          cellAt st'.grads i j = (cellAt st.grads i j).bind
            (fun c => accumSpecCell c (tensorsAt bs i j))) := by
  intro bs
  induction bs with
  | nil =>
    intro st S _ _ hG _
    refine ⟨st, rfl, rfl, rfl, rfl, fun _ _ => rfl, ?_⟩
    intro i hi j hj
    obtain ⟨row, hrow, hcells⟩ := hG i hi
    obtain ⟨c, hc, -⟩ := hcells j hj
    simp [cellAt, hrow, hc, tensorsAt, accumSpecCell]
  | cons b bs ih =>
    intro st S hL hU hG hB
    obtain ⟨G1, hstep, hG1len, hframe1, hmain⟩ :=
      batchStep_ok st b S hL hU hG (hB b (List.mem_cons_self b bs))
    have hG1 : ∀ i, i < st.layers.length → ∃ row, G1[i]? = some row ∧
        ∀ j, j < (st.layers.getD i []).length →
          ∃ c, row[j]? = some c ∧ cellCompat c (S i j) := by
      intro i hi
      obtain ⟨row, row1, _, hrow1, _, hcells, _⟩ := hmain i hi
      refine ⟨row1, hrow1, ?_⟩
      intro j hj
      obtain ⟨c, g, c1, _, _, _, hc1, hcompat1⟩ := hcells j hj
      exact ⟨c1, hc1, hcompat1⟩
    obtain ⟨st2, hrun, hlay2, hun2, hlen2, hframe2, hcells2⟩ :=
      ih ⟨st.layers, st.untracked, G1⟩ S hL hU hG1
        (fun b2 hb2 => hB b2 (List.mem_cons_of_mem b hb2))
    refine ⟨st2, ?_, hlay2, hun2, by simpa [hG1len] using hlen2, ?_, ?_⟩
    · simp only [runBatches, hstep, bind, Except.bind, hrun]
    · intro q hq
      rw [hframe2 q hq, hframe1 q hq]
    · intro i hi j hj
      obtain ⟨row, row1, hrow, hrow1, _, hcells, _⟩ := hmain i hi
      obtain ⟨c, g, c1, hc, hg, hadd, hc1, -⟩ := hcells j hj
      have hG1cell : cellAt G1 i j = some c1 := by simp [cellAt, hrow1, hc1]
      have hstcell : cellAt st.grads i j = some c := by simp [cellAt, hrow, hc]
      have h2 := hcells2 i hi j hj
      have hgrads : (⟨st.layers, st.untracked, G1⟩ : TrainState).grads = G1 := rfl
      rw [hgrads, hG1cell] at h2
      rw [h2, hstcell]
      simp only [Option.some_bind, tensorsAt, List.map_cons, hg, Option.getD_some,
        accumSpecCell, hadd]

/-! ### Closed form of the per-cell accumulation -/

theorem getD_map_sq (l : List ℚ) (k : Nat) :
    (l.map (fun x => x * x)).getD k 0 = l.getD k 0 * l.getD k 0 := by
  cases h : l[k]? with
  | none => simp [List.getD_eq_getElem?_getD, List.getElem?_map, h]
  | some x => simp [List.getD_eq_getElem?_getD, List.getElem?_map, h]

theorem getD_zipWith_add (a b : List ℚ) (hlen : a.length = b.length) (k : Nat) :
    (List.zipWith (· + ·) a b).getD k 0 = a.getD k 0 + b.getD k 0 := by
  rcases Nat.lt_or_ge k a.length with hk | hk
  · have hb : k < b.length := hlen ▸ hk
    simp [List.getD_eq_getElem?_getD, List.getElem?_zipWith',
      List.getElem?_eq_getElem hk, List.getElem?_eq_getElem hb]
  · have hb : b.length ≤ k := hlen ▸ hk
    rw [List.getD_eq_getElem?_getD, List.getD_eq_getElem?_getD,
      List.getD_eq_getElem?_getD, List.getElem?_zipWith',
      List.getElem?_eq_none hk, List.getElem?_eq_none hb]
    simp

theorem accumSpecCell_tensor_closed :
    ∀ (ts : List Tensor) (a : Tensor) (s : List Nat) (n : Nat),
      a.shape = s → a.data.length = n →
      (∀ t ∈ ts, t.shape = s ∧ t.data.length = n) →
      ∃ d : List ℚ,
        accumSpecCell (Cell.tensor a) ts = some (Cell.tensor ⟨s, d⟩) ∧
        d.length = n ∧
        ∀ k : Nat, d.getD k 0 = a.data.getD k 0 +
          (ts.map (fun t => t.data.getD k 0 * t.data.getD k 0)).sum := by
  intro ts
  induction ts with
  | nil =>
    intro a s n hs hn _
    refine ⟨a.data, ?_, hn, by intro k; simp⟩
    cases a with
    | mk sh dt => cases hs; rfl
  | cons t ts ih =>
    intro a s n hs hn hall
    obtain ⟨hts, htn⟩ := hall t (List.mem_cons_self t ts)
    have hsq : a.shape = t.square.shape := by simp [Tensor.square, hs, hts]
    have hstep : (Cell.tensor a).addTensor t.square =
        some (Cell.tensor ⟨a.shape, List.zipWith (· + ·) a.data t.square.data⟩) := by
      simp [Cell.addTensor, Tensor.add, if_pos hsq]
    have hlen2 : (List.zipWith (· + ·) a.data t.square.data).length = n := by
      simp [List.length_zipWith, Tensor.square, hn, htn]
    obtain ⟨d, hok, hdlen, hdk⟩ :=
      ih ⟨a.shape, List.zipWith (· + ·) a.data t.square.data⟩ s n hs hlen2
        (fun t2 ht2 => hall t2 (List.mem_cons_of_mem t ht2))
    refine ⟨d, ?_, hdlen, ?_⟩
    · simp only [accumSpecCell, hstep, Option.some_bind]
      exact hok
    · intro k
      rw [hdk k]
      have : (List.zipWith (· + ·) a.data t.square.data).getD k 0 =
          a.data.getD k 0 + t.data.getD k 0 * t.data.getD k 0 := by
        rw [getD_zipWith_add a.data t.square.data
          (by simp [Tensor.square, hn, htn])]
        simp only [Tensor.square]
        rw [getD_map_sq]
      rw [this]
      simp only [List.map_cons, List.sum_cons]
      ring

theorem accumSpecCell_scalar_zero_closed
    (ts : List Tensor) (s : List Nat) (n : Nat)
    (hall : ∀ t ∈ ts, t.shape = s ∧ t.data.length = n) (hne : ts ≠ []) :
    ∃ d : List ℚ,
      accumSpecCell (Cell.scalar 0) ts = some (Cell.tensor ⟨s, d⟩) ∧
      d.length = n ∧
      ∀ k : Nat, d.getD k 0 =
        (ts.map (fun t => t.data.getD k 0 * t.data.getD k 0)).sum := by
  cases ts with
  | nil => cases hne rfl
  | cons t ts =>
    obtain ⟨hts, htn⟩ := hall t (List.mem_cons_self t ts)
    have hmapid : (t.square.data.map (fun x => (0 : ℚ) + x)) = t.square.data := by
      have : (fun x => (0 : ℚ) + x) = id := by funext x; exact zero_add x
      rw [this, List.map_id]
    have hstep : (Cell.scalar 0).addTensor t.square =
        some (Cell.tensor ⟨t.shape, t.square.data⟩) := by
      simp only [Cell.addTensor, Tensor.square] at hmapid ⊢
      rw [hmapid]
    have hlen1 : (Tensor.mk t.shape t.square.data).data.length = n := by
      simp [Tensor.square, htn]
    obtain ⟨d, hok, hdlen, hdk⟩ :=
      accumSpecCell_tensor_closed ts ⟨t.shape, t.square.data⟩ s n hts hlen1
        (fun t2 ht2 => hall t2 (List.mem_cons_of_mem t ht2))
    refine ⟨d, ?_, hdlen, ?_⟩
    · simp only [accumSpecCell, hstep, Option.some_bind]
      exact hok
    · intro k
      rw [hdk k]
      simp only [List.map_cons, List.sum_cons]
      have : (Tensor.mk t.shape t.square.data).data.getD k 0 =
          t.data.getD k 0 * t.data.getD k 0 := by
        show t.square.data.getD k 0 = _
        simp only [Tensor.square]
        rw [getD_map_sq]
      rw [this]

theorem initGrads_getElem {α : Type _} (f o m : Bool) (L0 : List α) (i : Nat)
    (hi : i < L0.length) :
    (initGrads f o m L0)[i]? =
      some (List.replicate (familyWidth f o m) (Cell.scalar 0)) := by
  have h := List.getElem?_eq_getElem hi
  cases f <;> cases o <;> cases m <;>
    simp [initGrads, familyWidth, List.getElem?_map, h,
      List.getElem?_replicate_of_lt hi]

theorem scalar_cellCompat (q : ℚ) (s : List Nat) : cellCompat (Cell.scalar q) s :=
  fun t ht => by cases ht

theorem getD_width {L0 : List (List Module)} {i : Nat} {w : Nat}
    (hW : ∀ ms ∈ L0, ms.length = w) (hi : i < L0.length) :
    (L0.getD i []).length = w := by
  rw [getD_eq_of_getElem? [] (List.getElem?_eq_getElem hi)]
  exact hW L0[i] (List.getElem_mem hi)

/-- **C1**: over any fixed batch sequence, the loop processes the first 100
batches in order; provided every tracked module receives a (deterministic)
gradient of a per-cell fixed shape in each processed batch, the loop
succeeds and the final accumulator of every (layer, module) cell is exactly
the sum over all processed batches of the element-wise square of that
module's gradient at that batch — the gradient clearing after each batch
(`optimizer.zero_grad()`) guarantees no residual from earlier batches is
ever squared in. -/
theorem final_accumulator_is_sum_of_squares
    (f o m : Bool) (L0 : List (List Module)) (U0 : List Module)
    (dl : List Batch) (S : Nat → Nat → List Nat) (N : Nat → Nat → Nat)
    (hW : ∀ ms ∈ L0, ms.length = familyWidth f o m)
    (hLnone : ∀ ms ∈ L0, ∀ mm ∈ ms, mm.grad = none)
    (hUnone : ∀ mm ∈ U0, mm.grad = none)
    (hB : ∀ b ∈ dl.take 100, ∀ i, i < L0.length →
      ∀ j, j < familyWidth f o m →
      (contribAt b.tracked i j).map Tensor.shape = some (S i j) ∧
      (contribAt b.tracked i j).map (fun g => g.data.length) = some (N i j)) :
    ∃ st', loopBatches ⟨L0, U0, initGrads f o m L0⟩ dl = Except.ok st' ∧
      ∀ i, i < L0.length → ∀ j, j < familyWidth f o m →
        ∃ d : List ℚ,
          (dl.take 100 = [] → cellAt st'.grads i j = some (Cell.scalar 0)) ∧
          (dl.take 100 ≠ [] →
            cellAt st'.grads i j = some (Cell.tensor ⟨S i j, d⟩) ∧
            d.length = N i j ∧
            ∀ k : Nat, d.getD k 0 =
              ((dl.take 100).map
                (fun b => entryAt b i j k * entryAt b i j k)).sum) := by
  have hlay : (⟨L0, U0, initGrads f o m L0⟩ : TrainState).layers = L0 := rfl
  have hgr : (⟨L0, U0, initGrads f o m L0⟩ : TrainState).grads =
    initGrads f o m L0 := rfl
  have hwid : ∀ i, i < L0.length → (L0.getD i []).length = familyWidth f o m :=
    fun i hi => getD_width hW hi
  have hG : ∀ i, i < L0.length → ∃ row, (initGrads f o m L0)[i]? = some row ∧
      ∀ j, j < (L0.getD i []).length →
        ∃ c, row[j]? = some c ∧ cellCompat c (S i j) := by
    intro i hi
    refine ⟨_, initGrads_getElem f o m L0 i hi, ?_⟩
    intro j hj
    rw [hwid i hi] at hj
    exact ⟨Cell.scalar 0, List.getElem?_replicate_of_lt hj,
      scalar_cellCompat 0 (S i j)⟩
  obtain ⟨st', hrun, hlay', hun', hlen', hframe', hcells'⟩ :=
    runBatches_ok (dl.take 100) ⟨L0, U0, initGrads f o m L0⟩ S hLnone hUnone hG
      (by
        intro b hb i hi j hj
        rw [hwid i hi] at hj
        exact (hB b hb i hi j hj).1)
  refine ⟨st', hrun, ?_⟩
  intro i hi j hj
  have hj' : j < (L0.getD i []).length := by rw [hwid i hi]; exact hj
  have hcell := hcells' i hi j hj'
  have hinit : cellAt (initGrads f o m L0) i j = some (Cell.scalar 0) := by
    simp [cellAt, initGrads_getElem f o m L0 i hi,
      List.getElem?_replicate_of_lt hj]
  rw [hgr, hinit] at hcell
  simp only [Option.some_bind] at hcell
  rcases eq_or_ne (dl.take 100) [] with hemp | hne
  · refine ⟨[], ?_, fun h => absurd hemp h⟩
    intro _
    rw [hcell, hemp]
    rfl
  · have hts : ∀ t ∈ tensorsAt (dl.take 100) i j,
        t.shape = S i j ∧ t.data.length = N i j := by
      intro t ht
      obtain ⟨b, hb, rfl⟩ := List.mem_map.mp ht
      obtain ⟨h1, h2⟩ := hB b hb i hi j hj
      cases hcg : contribAt b.tracked i j with
      | none => rw [hcg] at h1; cases h1
      | some g =>
        rw [hcg] at h1 h2
        have hg1 : g.shape = S i j := Option.some.inj h1
        have hg2 : g.data.length = N i j := Option.some.inj h2
        simp only [hcg, Option.getD_some]
        exact ⟨hg1, hg2⟩
    have htne : tensorsAt (dl.take 100) i j ≠ [] := by
      cases h100 : dl.take 100 with
      | nil => exact absurd h100 hne
      | cons b bs => simp [tensorsAt, h100]
    obtain ⟨d, hok, hdlen, hdk⟩ :=
      accumSpecCell_scalar_zero_closed (tensorsAt (dl.take 100) i j)
        (S i j) (N i j) hts htne
    refine ⟨d, fun h => absurd h hne, fun _ => ⟨?_, hdlen, ?_⟩⟩
    · rw [hcell, hok]
    · intro k
      rw [hdk k]
      rw [tensorsAt, List.map_map]
      rfl

/-! ### Finalizing: the destructive weight overwrite -/

theorem finalizeModules_ok :
    ∀ (ms : List Module) (grads : List (List Cell)) (i j : Nat),
      (∀ t, t < ms.length →
        ∃ w, cellAt grads i (j + t) = some (Cell.tensor w)) →
      ∃ ms', finalizeModules grads i j ms = Except.ok ms' ∧
        ms'.length = ms.length ∧
        ∀ t : Nat, ms'[t]? = (ms[t]?).bind (fun mm =>
          (cellAt grads i (j + t)).map (fun c => (⟨c, mm.grad⟩ : Module))) := by
  intro ms
  induction ms with
  | nil =>
    intro grads i j _
    exact ⟨[], rfl, rfl, fun t => by simp⟩
  | cons m ms ih =>
    intro grads i j hyp
    obtain ⟨w, hc⟩ := hyp 0 (Nat.succ_pos _)
    rw [Nat.add_zero] at hc
    obtain ⟨row, hrow, hcol⟩ : ∃ row, grads[i]? = some row ∧
        row[j]? = some (Cell.tensor w) := by
      unfold cellAt at hc
      cases hg : grads[i]? with
      | none => rw [hg] at hc; cases hc
      | some row =>
        rw [hg] at hc
        exact ⟨row, rfl, by simpa using hc⟩
    obtain ⟨rest, hrest, hlen, hpt⟩ := ih grads i (j + 1)
      (fun t ht => by
        obtain ⟨w2, hw2⟩ := hyp (t + 1) (Nat.succ_lt_succ ht)
        rw [show j + (t + 1) = j + 1 + t by omega] at hw2
        exact ⟨w2, hw2⟩)
    refine ⟨⟨Cell.tensor w, m.grad⟩ :: rest, ?_, by simp [hlen], ?_⟩
    · simp [finalizeModules, finalizeOne, hrow, hcol, hrest, bind, Except.bind]
    · intro t
      cases t with
      | zero => simp [hc]
      | succ s =>
        simp only [List.getElem?_cons_succ, hpt s,
          show j + 1 + s = j + (s + 1) by omega]

theorem finalizeLayers_ok :
    ∀ (L : List (List Module)) (grads : List (List Cell)) (i : Nat),
      (∀ r, r < L.length → ∀ t, t < (L.getD r []).length →
        ∃ w, cellAt grads (i + r) t = some (Cell.tensor w)) →
      ∃ L', finalizeLayers grads i L = Except.ok L' ∧
        L'.length = L.length ∧
        (∀ r : Nat, (L'[r]?).map List.length = (L[r]?).map List.length) ∧
        ∀ r t : Nat, modAt L' r t = (modAt L r t).bind (fun mm =>
          (cellAt grads (i + r) t).map (fun c => (⟨c, mm.grad⟩ : Module))) := by
  intro L
  induction L with
  | nil =>
    intro grads i _
    exact ⟨[], rfl, rfl, fun r => by simp, fun r t => by simp [modAt]⟩
  | cons ms rest ih =>
    intro grads i hyp
    obtain ⟨ms', hms, hmslen, hmspt⟩ := finalizeModules_ok ms grads i 0
      (fun t ht => by
        obtain ⟨w, hw⟩ := hyp 0 (Nat.succ_pos _) t (by simpa using ht)
        rw [Nat.add_zero] at hw
        rw [Nat.zero_add]
        exact ⟨w, hw⟩)
    obtain ⟨rest', hrest, hrestlen, hrowlen, hrestpt⟩ := ih grads (i + 1)
      (fun r hr t ht => by
        obtain ⟨w, hw⟩ := hyp (r + 1) (Nat.succ_lt_succ hr) t (by simpa using ht)
        rw [show i + (r + 1) = i + 1 + r by omega] at hw
        exact ⟨w, hw⟩)
    refine ⟨ms' :: rest', ?_, by simp [hrestlen], ?_, ?_⟩
    · simp [finalizeLayers, hms, hrest, bind, Except.bind]
    · intro r
      cases r with
      | zero => simp [hmslen]
      | succ s => simp [hrowlen s]
    · intro r t
      cases r with
      | zero =>
        simp only [modAt, List.getElem?_cons_zero, Option.some_bind,
          Nat.add_zero]
        rw [hmspt t]
        simp
      | succ s =>
        simp only [modAt, List.getElem?_cons_succ]
        have := hrestpt s t
        simp only [modAt] at this
        rw [this, show i + 1 + s = i + (s + 1) by omega]

theorem initGrads_all_zero {α : Type _} (f o m : Bool) (ls : List α) :
    ∀ row ∈ initGrads f o m ls, ∀ c ∈ row, c = Cell.scalar 0 := by
  intro row hrow
  unfold initGrads at hrow
  cases f <;> cases o <;> cases m <;>
    · obtain ⟨a, -, h⟩ := List.mem_map.mp hrow
      intro c hc
      rw [← h] at hc
      exact List.eq_of_mem_replicate hc

theorem familyWidth_pos (f o m : Bool) : 0 < familyWidth f o m := by
  cases f <;> cases o <;> cases m <;> decide

theorem finalizeModules_scalar_error (grads : List (List Cell)) (i j : Nat)
    (m1 : Module) (ms : List Module) (row : List Cell) (q : ℚ)
    (hrow : grads[i]? = some row) (hcell : row[j]? = some (Cell.scalar q)) :
    finalizeModules grads i j (m1 :: ms) =
      Except.error "TypeError: Variable data has to be a tensor, but got float" := by
  simp [finalizeModules, finalizeOne, hrow, hcell, bind, Except.bind]

/-- **C10 amended**: every accumulator cell starts as the Python float `0.`
(not a zero tensor); only the first addition of a squared gradient
establishes a tensor of the gradient's shape; consequently a run that
processes zero batches aborts at FINALIZING with a `TypeError` — the first
`module.weight.data = grads[i][j]` hands PyTorch's `Tensor.data` setter the
float `0.` — and no weight is ever replaced. -/
theorem zero_batch_finalize_raises
    (f o m : Bool) (ls : List Layer) (un : List Module)
    (L0 : List (List Module)) (hsel : selectAll f o m ls = Except.ok L0)
    (hne : ls ≠ []) :
    (∀ row ∈ initGrads f o m ls, ∀ c ∈ row, c = Cell.scalar 0) ∧
    (∀ (q : ℚ) (t : Tensor), ∃ d : List ℚ,
      (Cell.scalar q).addTensor t = some (Cell.tensor ⟨t.shape, d⟩)) ∧
    trainFromLayers f o m ls un [] =
      Except.error "TypeError: Variable data has to be a tensor, but got float" := by
  obtain ⟨hlslen, hwidths⟩ := selectAll_ok_spec f o m ls L0 hsel
  refine ⟨initGrads_all_zero f o m ls,
    fun q t => ⟨t.data.map (fun x => q + x), rfl⟩, ?_⟩
  cases L0 with
  | nil =>
    cases ls with
    | nil => exact absurd rfl hne
    | cons a as => simp at hlslen
  | cons mods rest =>
    have hmodsw : mods.length = familyWidth f o m :=
      hwidths mods (List.mem_cons_self mods rest)
    have hmodsne : mods ≠ [] := by
      intro h
      subst h
      simp at hmodsw
      have := familyWidth_pos f o m
      omega
    obtain ⟨m1, mods', hm⟩ := List.exists_cons_of_ne_nil hmodsne
    have hls0 : 0 < ls.length := by
      rw [← hlslen]
      simp
    have hrow0 : (initGrads f o m ls)[0]? =
        some (List.replicate (familyWidth f o m) (Cell.scalar 0)) :=
      initGrads_getElem f o m ls 0 hls0
    have hcell0 : (List.replicate (familyWidth f o m) (Cell.scalar 0))[0]? =
        some (Cell.scalar 0) :=
      List.getElem?_replicate_of_lt (familyWidth_pos f o m)
    have herr : finalizeModules (initGrads f o m ls) 0 0 mods =
        Except.error "TypeError: Variable data has to be a tensor, but got float" := by
      rw [hm]
      exact finalizeModules_scalar_error (initGrads f o m ls) 0 0 m1 mods' _ 0
        hrow0 hcell0
    have herrL : finalizeLayers (initGrads f o m ls) 0 (mods :: rest) =
        Except.error "TypeError: Variable data has to be a tensor, but got float" := by
      simp [finalizeLayers, herr, bind, Except.bind]
    simp only [trainFromLayers, hsel, bind, Except.bind, loopBatches,
      List.take_nil, runBatches, finalize, herrL]

/-- A concrete module list used by several witnesses: weight a 1-entry
tensor of shape `[1]`, gradient slot empty. -/
def wModule : Module := ⟨Cell.tensor ⟨[1], [5]⟩, none⟩

/-- **C10 counterexample**: at a concrete zero-batch falcon-family run the
pipeline does not return a final state with scalar-`0.` weights — it aborts
at the first weight assignment, whose right-hand side is still the Python
float `0.`, which PyTorch's `Tensor.data` setter rejects. -/
theorem zero_batch_install_counterexample :
    trainFromLayers true false false [omniLayer ⟨[1], [4]⟩] [] [] =
      Except.error "TypeError: Variable data has to be a tensor, but got float" :=
  rfl

/-- Witness for **C10 amended** at a concrete falcon-family input. -/
theorem zero_batch_finalize_raises_witness :
    (∀ row ∈ initGrads true false false [omniLayer ⟨[1], [4]⟩],
      ∀ c ∈ row, c = Cell.scalar 0) ∧
    (∀ (q : ℚ) (t : Tensor), ∃ d : List ℚ,
      (Cell.scalar q).addTensor t = some (Cell.tensor ⟨t.shape, d⟩)) ∧
    trainFromLayers true false false [omniLayer ⟨[1], [4]⟩] [] [] =
      Except.error "TypeError: Variable data has to be a tensor, but got float" :=
  zero_batch_finalize_raises true false false [omniLayer ⟨[1], [4]⟩] []
    [List.replicate 6 ⟨Cell.tensor ⟨[1], [4]⟩, none⟩] rfl
    (List.cons_ne_nil _ _)

/-- **C5 counterexample**: on a zero-batch default-family run FINALIZING
never completes — the first `module.weight.data = grads[0][0]` assigns the
Python float `0.` and raises a `TypeError` — so there is no post-FINALIZING
state in which the weight was replaced by the accumulator with its shape
preserved, although the pre-run weight shape `[1]` is well defined. -/
theorem finalize_shape_counterexample :
    trainFromLayers false false false [omniLayer ⟨[1], [5]⟩] [] [] =
      Except.error "TypeError: Variable data has to be a tensor, but got float" ∧
    ((omniLayer ⟨[1], [5]⟩) "self_attn.q_proj").map (fun mm => mm.weight.shape?)
      = some (some [1]) :=
  ⟨rfl, rfl⟩

/-- **C5 amended**: at FINALIZING every tracked module's weight is replaced
by its accumulator cell; and provided at least one batch was processed and
every tracked module received a gradient of its weight's shape in each
processed batch, the post-FINALIZING weight shape equals the pre-run weight
shape, for every supported family. -/
theorem finalize_installs_accumulator_and_preserves_shape
    (f o m : Bool) (L0 : List (List Module)) (U0 : List Module)
    (dl : List Batch) (S : Nat → Nat → List Nat) (N : Nat → Nat → Nat)
    (hW : ∀ ms ∈ L0, ms.length = familyWidth f o m)
    (hLnone : ∀ ms ∈ L0, ∀ mm ∈ ms, mm.grad = none)
    (hUnone : ∀ mm ∈ U0, mm.grad = none)
    (hB : ∀ b ∈ dl.take 100, ∀ i, i < L0.length →
      ∀ j, j < familyWidth f o m →
      (contribAt b.tracked i j).map Tensor.shape = some (S i j) ∧
      (contribAt b.tracked i j).map (fun g => g.data.length) = some (N i j))
    (hne : dl.take 100 ≠ [])
    (hshape : ∀ i, i < L0.length → ∀ j, j < familyWidth f o m →
      (modAt L0 i j).bind (fun mm => mm.weight.shape?) = some (S i j)) :
    ∃ stf, Except.bind (loopBatches ⟨L0, U0, initGrads f o m L0⟩ dl) finalize
        = Except.ok stf ∧
      ∀ i, i < L0.length → ∀ j, j < familyWidth f o m →
        ∃ mm0 mm1, modAt L0 i j = some mm0 ∧
          modAt stf.layers i j = some mm1 ∧
          some mm1.weight = cellAt stf.grads i j ∧
          mm1.weight.shape? = mm0.weight.shape? := by
  have hwid : ∀ i, i < L0.length → (L0.getD i []).length = familyWidth f o m :=
    fun i hi => getD_width hW hi
  have hG : ∀ i, i < L0.length → ∃ row, (initGrads f o m L0)[i]? = some row ∧
      ∀ j, j < (L0.getD i []).length →
        ∃ c, row[j]? = some c ∧ cellCompat c (S i j) := by
    intro i hi
    refine ⟨_, initGrads_getElem f o m L0 i hi, ?_⟩
    intro j hj
    rw [hwid i hi] at hj
    exact ⟨Cell.scalar 0, List.getElem?_replicate_of_lt hj,
      scalar_cellCompat 0 (S i j)⟩
  obtain ⟨st', hrun, hlay', hun', hlen', hframe', hcells'⟩ :=
    runBatches_ok (dl.take 100) ⟨L0, U0, initGrads f o m L0⟩ S hLnone hUnone hG
      (by
        intro b hb i hi j hj
        rw [hwid i hi] at hj
        exact (hB b hb i hi j hj).1)
  have hlayL0 : st'.layers = L0 := hlay'
  have hcellval : ∀ i, i < L0.length → ∀ j, j < familyWidth f o m →
      ∃ d : List ℚ, cellAt st'.grads i j = some (Cell.tensor ⟨S i j, d⟩) := by
    intro i hi j hj
    have hj' : j < (L0.getD i []).length := by rw [hwid i hi]; exact hj
    have hcell := hcells' i hi j hj'
    have hinit : cellAt (initGrads f o m L0) i j = some (Cell.scalar 0) := by
      simp [cellAt, initGrads_getElem f o m L0 i hi,
        List.getElem?_replicate_of_lt hj]
    have hgr : (⟨L0, U0, initGrads f o m L0⟩ : TrainState).grads =
      initGrads f o m L0 := rfl
    rw [hgr, hinit] at hcell
    simp only [Option.some_bind] at hcell
    have hts : ∀ t ∈ tensorsAt (dl.take 100) i j,
        t.shape = S i j ∧ t.data.length = N i j := by
      intro t ht
      obtain ⟨b, hb, rfl⟩ := List.mem_map.mp ht
      obtain ⟨h1, h2⟩ := hB b hb i hi j hj
      cases hcg : contribAt b.tracked i j with
      | none => rw [hcg] at h1; cases h1
      | some g =>
        rw [hcg] at h1 h2
        have hg1 : g.shape = S i j := Option.some.inj h1
        have hg2 : g.data.length = N i j := Option.some.inj h2
        simp only [hcg, Option.getD_some]
        exact ⟨hg1, hg2⟩
    have htne : tensorsAt (dl.take 100) i j ≠ [] := by
      cases h100 : dl.take 100 with
      | nil => exact absurd h100 hne
      | cons b bs => simp [tensorsAt, h100]
    obtain ⟨d, hok, -, -⟩ :=
      accumSpecCell_scalar_zero_closed (tensorsAt (dl.take 100) i j)
        (S i j) (N i j) hts htne
    exact ⟨d, by rw [hcell, hok]⟩
  have hfinHyp : ∀ r, r < st'.layers.length →
      ∀ t, t < (st'.layers.getD r []).length →
        ∃ w, cellAt st'.grads (0 + r) t = some (Cell.tensor w) := by
    intro r hr t ht
    rw [hlayL0] at hr ht
    rw [hwid r hr] at ht
    obtain ⟨d, hd⟩ := hcellval r hr t ht
    rw [Nat.zero_add]
    exact ⟨⟨S r t, d⟩, hd⟩
  obtain ⟨L', hfin, -, -, hL'pt⟩ :=
    finalizeLayers_ok st'.layers st'.grads 0 hfinHyp
  refine ⟨⟨L', st'.untracked, st'.grads⟩, ?_, ?_⟩
  · have hrun2 : loopBatches ⟨L0, U0, initGrads f o m L0⟩ dl = Except.ok st' :=
      hrun
    rw [hrun2]
    simp only [Except.bind, finalize, hfin, bind]
  · intro i hi j hj
    have hj' : j < (L0.getD i []).length := by rw [hwid i hi]; exact hj
    have hmod : modAt L0 i j =
        some ((L0.getD i []).getD j ⟨Cell.scalar 0, none⟩) := by
      rw [modAt_eq_row hi]
      exact getElem?_eq_getD _ hj'
    obtain ⟨d, hd⟩ := hcellval i hi j hj
    have hpt := hL'pt i j
    rw [hlayL0, hmod, Nat.zero_add, hd] at hpt
    simp only [Option.some_bind, Option.map_some] at hpt
    set mm0 := (L0.getD i []).getD j ⟨Cell.scalar 0, none⟩ with hmm0
    refine ⟨mm0, ⟨Cell.tensor ⟨S i j, d⟩, mm0.grad⟩, hmod, hpt, ?_, ?_⟩
    · show some (Cell.tensor ⟨S i j, d⟩) = cellAt st'.grads i j
      rw [hd]
    · have := hshape i hi j hj
      rw [hmod] at this
      simp only [Option.some_bind] at this
      rw [this]
      rfl

/-! ### Absent gradients abort the accumulation (claim C4) -/

theorem contribAt_zero (tr : List (List (Option Tensor))) (j : Nat) :
    contribAt tr 0 j = (tr.headD []).getD j none := by cases tr <;> rfl

theorem contribAt_tail (tr : List (List (Option Tensor))) (i j : Nat) :
    contribAt tr.tail i j = contribAt tr (i + 1) j := by cases tr <;> rfl

theorem backwardModules_pointwise :
    ∀ (ms : List Module) (gs : List (Option Tensor)) (ms' : List Module),
      backwardModules ms gs = Except.ok ms' →
      ∀ (t : Nat) (mm : Module), ms[t]? = some mm →
        ∃ g', accGrad mm.grad (gs.getD t none) = Except.ok g' ∧
          ms'[t]? = some ⟨mm.weight, g'⟩ := by
  intro ms
  induction ms with
  | nil =>
    intro gs ms' _ t mm hmm
    simp at hmm
  | cons m ms ih =>
    intro gs ms' h t mm hmm
    simp only [backwardModules, bind, Except.bind] at h
    cases hg : accGrad m.grad (gs.headD none) with
    | error e => rw [hg] at h; cases h
    | ok g1 =>
      rw [hg] at h
      cases hrest : backwardModules ms gs.tail with
      | error e => rw [hrest] at h; cases h
      | ok rest =>
        rw [hrest] at h
        cases h
        cases t with
        | zero =>
          simp only [List.getElem?_cons_zero] at hmm
          cases hmm
          refine ⟨g1, ?_, by simp⟩
          rw [← headD_none_eq_getD]
          exact hg
        | succ s =>
          simp only [List.getElem?_cons_succ] at hmm
          obtain ⟨g', hacc, hpt⟩ := ih gs.tail rest hrest s mm hmm
          refine ⟨g', ?_, by simpa using hpt⟩
          rwa [tail_getD_eq] at hacc

theorem backwardLayers_pointwise :
    ∀ (L : List (List Module)) (tr : List (List (Option Tensor)))
      (L' : List (List Module)),
      backwardLayers L tr = Except.ok L' →
      ∀ (i j : Nat) (mm : Module), modAt L i j = some mm →
        ∃ g', accGrad mm.grad (contribAt tr i j) = Except.ok g' ∧
          modAt L' i j = some ⟨mm.weight, g'⟩ := by
  intro L
  induction L with
  | nil =>
    intro tr L' _ i j mm hmm
    simp [modAt] at hmm
  | cons ms rest ih =>
    intro tr L' h i j mm hmm
    simp only [backwardLayers, bind, Except.bind] at h
    cases hms : backwardModules ms (tr.headD []) with
    | error e => rw [hms] at h; cases h
    | ok ms' =>
      rw [hms] at h
      cases hrest : backwardLayers rest tr.tail with
      | error e => rw [hrest] at h; cases h
      | ok rest' =>
        rw [hrest] at h
        cases h
        cases i with
        | zero =>
          simp only [modAt, List.getElem?_cons_zero, Option.some_bind] at hmm ⊢
          obtain ⟨g', hacc, hpt⟩ := backwardModules_pointwise ms _ ms' hms j mm hmm
          refine ⟨g', ?_, hpt⟩
          rwa [contribAt_zero]
        | succ s =>
          simp only [modAt, List.getElem?_cons_succ] at hmm ⊢
          obtain ⟨g', hacc, hpt⟩ := ih tr.tail rest' hrest s j mm hmm
          refine ⟨g', ?_, hpt⟩
          rwa [contribAt_tail] at hacc

theorem accumModules_error_of_none :
    ∀ (ms : List Module) (grads : List (List Cell)) (i j : Nat),
      (∃ mm ∈ ms, mm.grad = none) →
      ∃ e, accumModules grads i j ms = Except.error e := by
  intro ms
  induction ms with
  | nil =>
    rintro grads i j ⟨mm, hmm, -⟩
    cases hmm
  | cons m ms ih =>
    rintro grads i j ⟨mm, hmm, hnone⟩
    rcases List.mem_cons.mp hmm with rfl | htail
    · exact ⟨"TypeError: unsupported operand type(s) for ** or pow(): NoneType and int",
        by simp [accumModules, accumOne, hnone, bind, Except.bind]⟩
    · cases hacc : accumOne grads i j m with
      | error e => exact ⟨e, by simp [accumModules, hacc, bind, Except.bind]⟩
      | ok g2 =>
        obtain ⟨e, he⟩ := ih g2 i (j + 1) ⟨mm, htail, hnone⟩
        exact ⟨e, by simp [accumModules, hacc, bind, Except.bind, he]⟩

theorem accumLayers_error_of_none :
    ∀ (L : List (List Module)) (grads : List (List Cell)) (i : Nat),
      (∃ ms ∈ L, ∃ mm ∈ ms, mm.grad = none) →
      ∃ e, accumLayers grads i L = Except.error e := by
  intro L
  induction L with
  | nil =>
    rintro grads i ⟨ms, hms, -⟩
    cases hms
  | cons ms rest ih =>
    rintro grads i ⟨ms2, hms2, hmm⟩
    rcases List.mem_cons.mp hms2 with rfl | htail
    · obtain ⟨e, he⟩ := accumModules_error_of_none ms2 grads i 0 hmm
      exact ⟨e, by simp [accumLayers, he, bind, Except.bind]⟩
    · cases hacc : accumModules grads i 0 ms with
      | error e => exact ⟨e, by simp [accumLayers, hacc, bind, Except.bind]⟩
      | ok g2 =>
        obtain ⟨e, he⟩ := ih g2 (i + 1) ⟨ms2, htail, hmm⟩
        exact ⟨e, by simp [accumLayers, hacc, bind, Except.bind, he]⟩

/-- The concrete state of the C4 counterexample: one layer with one tracked
module whose gradient slot is empty. -/
def c4st : TrainState := ⟨[[wModule]], [], [[Cell.scalar 0]]⟩

/-- The concrete batch of the C4 counterexample: it contributes no gradient
to the tracked module. -/
def c4b : Batch := ⟨[[none]], []⟩

/-- **C4 counterexample**: a batch whose gradient is absent for a tracked
module makes the accumulation step raise a `TypeError` (Python squares
`None`); it is not treated as a zero contribution. -/
theorem absent_gradient_raises_counterexample :
    batchStep c4st c4b = Except.error
      "TypeError: unsupported operand type(s) for ** or pow(): NoneType and int" :=
  rfl

/-- **C4 amended**: if a tracked module's gradient slot is still empty when
the accumulation step reads it (no backward pass has touched the module and
the batch contributed nothing), the batch step aborts with an error at that
very batch — absence is never converted to a zero contribution, and no
check is deferred to FINALIZING. -/
theorem absent_gradient_aborts_run (st : TrainState) (b : Batch)
    (h : ∃ i j mm, modAt st.layers i j = some mm ∧ mm.grad = none ∧
      contribAt b.tracked i j = none) :
    ∃ e, batchStep st b = Except.error e := by
  obtain ⟨i, j, mm, hmod, hgrad, hcontrib⟩ := h
  cases hbw : backwardLayers st.layers b.tracked with
  | error e => exact ⟨e, by simp [batchStep, hbw, bind, Except.bind]⟩
  | ok L1 =>
    obtain ⟨g', hacc, hpt⟩ := backwardLayers_pointwise _ _ _ hbw i j mm hmod
    rw [hcontrib, hgrad] at hacc
    have hg' : g' = none := (Except.ok.inj hacc).symm
    cases hbwu : backwardModules st.untracked b.untracked with
    | error e => exact ⟨e, by simp [batchStep, hbw, hbwu, bind, Except.bind]⟩
    | ok U1 =>
      have hmem : ∃ ms ∈ L1, ∃ mm2 ∈ ms, mm2.grad = none := by
        unfold modAt at hpt
        cases hL1i : L1[i]? with
        | none => rw [hL1i] at hpt; cases hpt
        | some row =>
          rw [hL1i] at hpt
          simp only [Option.some_bind] at hpt
          exact ⟨row, List.getElem?_mem hL1i,
            ⟨mm.weight, g'⟩, List.getElem?_mem hpt, hg'⟩
      obtain ⟨e, he⟩ := accumLayers_error_of_none L1 st.grads 0 hmem
      exact ⟨e, by simp [batchStep, hbw, hbwu, bind, Except.bind, he]⟩

/-- Witness for **C4 amended** at the counterexample input. -/
theorem absent_gradient_aborts_run_witness :
    ∃ e, batchStep c4st c4b = Except.error e :=
  absent_gradient_aborts_run c4st c4b ⟨0, 0, wModule, rfl, rfl, rfl⟩

/-! ### No optimizer step: weights are frozen during RUNNING (claim C6) -/

theorem backwardModules_weights :
    ∀ (ms : List Module) (gs : List (Option Tensor)) (ms' : List Module),
      backwardModules ms gs = Except.ok ms' →
      ms'.map Module.weight = ms.map Module.weight := by
  intro ms
  induction ms with
  | nil =>
    intro gs ms' h
    cases h
    rfl
  | cons m ms ih =>
    intro gs ms' h
    simp only [backwardModules, bind, Except.bind] at h
    cases hg : accGrad m.grad (gs.headD none) with
    | error e => rw [hg] at h; cases h
    | ok g1 =>
      rw [hg] at h
      cases hrest : backwardModules ms gs.tail with
      | error e => rw [hrest] at h; cases h
      | ok rest =>
        rw [hrest] at h
        cases h
        simp [ih gs.tail rest hrest]

theorem backwardLayers_weights :
    ∀ (L : List (List Module)) (tr : List (List (Option Tensor)))
      (L' : List (List Module)),
      backwardLayers L tr = Except.ok L' →
      L'.map (List.map Module.weight) = L.map (List.map Module.weight) := by
  intro L
  induction L with
  | nil =>
    intro tr L' h
    cases h
    rfl
  | cons ms rest ih =>
    intro tr L' h
    simp only [backwardLayers, bind, Except.bind] at h
    cases hms : backwardModules ms (tr.headD []) with
    | error e => rw [hms] at h; cases h
    | ok ms' =>
      rw [hms] at h
      cases hrest : backwardLayers rest tr.tail with
      | error e => rw [hrest] at h; cases h
      | ok rest' =>
        rw [hrest] at h
        cases h
        simp [backwardModules_weights ms _ ms' hms, ih tr.tail rest' hrest]

theorem zeroGradModules_weights (ms : List Module) :
    (zeroGradModules ms).map Module.weight = ms.map Module.weight := by
  unfold zeroGradModules
  rw [List.map_map]
  rfl

theorem batchStep_weights (st : TrainState) (b : Batch) (st' : TrainState)
    (h : batchStep st b = Except.ok st') :
    st'.layers.map (List.map Module.weight) =
      st.layers.map (List.map Module.weight) ∧
    st'.untracked.map Module.weight = st.untracked.map Module.weight := by
  cases hbw : backwardLayers st.layers b.tracked with
  | error e => simp only [batchStep, hbw, bind, Except.bind] at h; cases h
  | ok L1 =>
    cases hbwu : backwardModules st.untracked b.untracked with
    | error e =>
      simp only [batchStep, hbw, hbwu, bind, Except.bind] at h; cases h
    | ok U1 =>
      cases hacc : accumLayers st.grads 0 L1 with
      | error e =>
        simp only [batchStep, hbw, hbwu, hacc, bind, Except.bind] at h
        cases h
      | ok G1 =>
        simp only [batchStep, hbw, hbwu, hacc, bind, Except.bind] at h
        cases h
        constructor
        · show (L1.map zeroGradModules).map (List.map Module.weight) = _
          rw [List.map_map]
          have : ∀ ms ∈ L1, (List.map Module.weight ∘ zeroGradModules) ms =
              List.map Module.weight ms :=
            fun ms _ => zeroGradModules_weights ms
          rw [List.map_congr_left this]
          exact backwardLayers_weights st.layers b.tracked L1 hbw
        · show (zeroGradModules U1).map Module.weight = _
          rw [zeroGradModules_weights]
          exact backwardModules_weights st.untracked b.untracked U1 hbwu

theorem runBatches_weights :
    ∀ (bs : List Batch) (st st' : TrainState),
      runBatches st bs = Except.ok st' →
      st'.layers.map (List.map Module.weight) =
        st.layers.map (List.map Module.weight) ∧
      st'.untracked.map Module.weight = st.untracked.map Module.weight := by
  intro bs
  induction bs with
  | nil =>
    intro st st' h
    cases h
    exact ⟨rfl, rfl⟩
  | cons b bs ih =>
    intro st st' h
    simp only [runBatches, bind, Except.bind] at h
    cases hstep : batchStep st b with
    | error e => rw [hstep] at h; cases h
    | ok st1 =>
      rw [hstep] at h
      obtain ⟨h1, h2⟩ := ih st1 st' h
      obtain ⟨h3, h4⟩ := batchStep_weights st b st1 hstep
      exact ⟨h1.trans h3, h2.trans h4⟩

/-- **C6**: the loop applies no optimizer step — across any successful run
of the batch loop every tracked module's weight is unchanged (so weights
are modified only by the FINALIZING overwrite), and across the whole
pipeline the untracked modules (e.g. the embedding) keep their original
weights. -/
theorem no_optimizer_step_weights_frozen :
    (∀ (st : TrainState) (bs : List Batch) (st' : TrainState),
      runBatches st bs = Except.ok st' →
      st'.layers.map (List.map Module.weight) =
        st.layers.map (List.map Module.weight) ∧
      st'.untracked.map Module.weight = st.untracked.map Module.weight) ∧
    (∀ (f o m : Bool) (ls : List Layer) (un : List Module) (dl : List Batch)
      (res : TrainState),
      trainFromLayers f o m ls un dl = Except.ok res →
      res.untracked.map Module.weight = un.map Module.weight) := by
  refine ⟨fun st bs st' h => runBatches_weights bs st st' h, ?_⟩
  intro f o m ls un dl res h
  cases hsel : selectAll f o m ls with
  | error e => simp only [trainFromLayers, hsel, bind, Except.bind] at h; cases h
  | ok L0 =>
    cases hloop : loopBatches ⟨L0, un, initGrads f o m ls⟩ dl with
    | error e =>
      simp only [trainFromLayers, hsel, hloop, bind, Except.bind] at h
      cases h
    | ok st1 =>
      cases hfin : finalizeLayers st1.grads 0 st1.layers with
      | error e =>
        simp only [trainFromLayers, hsel, hloop, finalize, hfin, bind,
          Except.bind] at h
        cases h
      | ok L' =>
        simp only [trainFromLayers, hsel, hloop, finalize, hfin, bind,
          Except.bind] at h
        cases h
        have := (runBatches_weights (dl.take 100)
          ⟨L0, un, initGrads f o m ls⟩ st1 hloop).2
        simpa using this

/-- Witness for **C6**: a trivial loop run and a concrete pipeline run with
one untracked module. -/
theorem no_optimizer_step_weights_frozen_witness :
    ((⟨[[wModule]], [wModule], []⟩ : TrainState).layers.map
        (List.map Module.weight) =
      (⟨[[wModule]], [wModule], []⟩ : TrainState).layers.map
        (List.map Module.weight) ∧
     (⟨[[wModule]], [wModule], []⟩ : TrainState).untracked.map Module.weight =
      (⟨[[wModule]], [wModule], []⟩ : TrainState).untracked.map Module.weight) ∧
    (⟨[], [wModule], []⟩ : TrainState).untracked.map Module.weight =
      [wModule].map Module.weight :=
  ⟨(no_optimizer_step_weights_frozen).1 ⟨[[wModule]], [wModule], []⟩ []
      ⟨[[wModule]], [wModule], []⟩ rfl,
   (no_optimizer_step_weights_frozen).2 false false false [] [wModule] []
      ⟨[], [wModule], []⟩ rfl⟩

/-! ### The loop consumes exactly the first 100 batches (claim C7) -/

/-- **C7**: the loop body is applied to exactly `dataloader[:100]` — the
first `min 100 (length)` batches, strictly in loader order; batches past
position 100 never influence the run, and a loader of at most 100 batches
is consumed whole.  The bound 100 is the literal in `dataloader[:100]`. -/
theorem processes_first_100_batches (st : TrainState) (dl extra : List Batch) :
    loopBatches st dl = runBatches st (dl.take 100) ∧
    (dl.take 100).length = min 100 dl.length ∧
    (dl.length ≤ 100 → loopBatches st dl = runBatches st dl) ∧
    (100 ≤ dl.length → loopBatches st (dl ++ extra) = loopBatches st dl) := by
  refine ⟨rfl, List.length_take 100 dl, ?_, ?_⟩
  · intro h
    unfold loopBatches
    rw [List.take_of_length_le h]
  · intro h
    unfold loopBatches
    rw [List.take_append_of_le_length h]

/-- A gradient-free batch used by the C7 witness. -/
def idleBatch : Batch := ⟨[], []⟩

/-- Witness for **C7** on a loader of exactly 100 batches. -/
theorem processes_first_100_batches_witness :
    loopBatches ⟨[], [], []⟩ (List.replicate 100 idleBatch) =
      runBatches ⟨[], [], []⟩ ((List.replicate 100 idleBatch).take 100) ∧
    ((List.replicate 100 idleBatch).take 100).length =
      min 100 (List.replicate 100 idleBatch).length ∧
    loopBatches ⟨[], [], []⟩ (List.replicate 100 idleBatch) =
      runBatches ⟨[], [], []⟩ (List.replicate 100 idleBatch) ∧
    loopBatches ⟨[], [], []⟩ (List.replicate 100 idleBatch ++ [idleBatch]) =
      loopBatches ⟨[], [], []⟩ (List.replicate 100 idleBatch) :=
  ⟨(processes_first_100_batches ⟨[], [], []⟩ (List.replicate 100 idleBatch)
      [idleBatch]).1,
   (processes_first_100_batches ⟨[], [], []⟩ (List.replicate 100 idleBatch)
      [idleBatch]).2.1,
   (processes_first_100_batches ⟨[], [], []⟩ (List.replicate 100 idleBatch)
      [idleBatch]).2.2.1 (by simp),
   (processes_first_100_batches ⟨[], [], []⟩ (List.replicate 100 idleBatch)
      [idleBatch]).2.2.2 (by simp)⟩

/-! ### Concrete witnesses for the loop theorems -/

/-- One falcon-family layer of 6 tracked modules. -/
def c1L0 : List (List Module) := [List.replicate 6 wModule]

/-- A batch giving every tracked module the gradient `[2]` (shape `[1]`). -/
def c1Batch1 : Batch := ⟨[List.replicate 6 (some ⟨[1], [2]⟩)], []⟩

/-- A batch giving every tracked module the gradient `[3]` (shape `[1]`). -/
def c1Batch2 : Batch := ⟨[List.replicate 6 (some ⟨[1], [3]⟩)], []⟩

/-- A two-batch calibration loader. -/
def c1dl : List Batch := [c1Batch1, c1Batch2]

/-- Witness for **C1** on a 1-layer falcon model and two concrete batches. -/
theorem final_accumulator_is_sum_of_squares_witness :
    ∃ st', loopBatches ⟨c1L0, [], initGrads true false false c1L0⟩ c1dl =
        Except.ok st' ∧
      ∀ i, i < c1L0.length → ∀ j, j < familyWidth true false false →
        ∃ d : List ℚ,
          (c1dl.take 100 = [] → cellAt st'.grads i j = some (Cell.scalar 0)) ∧
          (c1dl.take 100 ≠ [] →
            cellAt st'.grads i j = some (Cell.tensor ⟨[1], d⟩) ∧
            d.length = 1 ∧
            ∀ k : Nat, d.getD k 0 =
              ((c1dl.take 100).map
                (fun b => entryAt b i j k * entryAt b i j k)).sum) :=
  final_accumulator_is_sum_of_squares true false false c1L0 [] c1dl
    (fun _ _ => [1]) (fun _ _ => 1) (by decide) (by decide) (by decide)
    (by decide)

/-- Witness for **C5 amended** on a 1-layer falcon model and one batch. -/
theorem finalize_installs_accumulator_and_preserves_shape_witness :
    ∃ stf, Except.bind
        (loopBatches ⟨c1L0, [], initGrads true false false c1L0⟩ [c1Batch1])
        finalize = Except.ok stf ∧
      ∀ i, i < c1L0.length → ∀ j, j < familyWidth true false false →
        ∃ mm0 mm1, modAt c1L0 i j = some mm0 ∧
          modAt stf.layers i j = some mm1 ∧
          some mm1.weight = cellAt stf.grads i j ∧
          mm1.weight.shape? = mm0.weight.shape? :=
  finalize_installs_accumulator_and_preserves_shape true false false c1L0 []
    [c1Batch1] (fun _ _ => [1]) (fun _ _ => 1)
    (by decide) (by decide) (by decide) (by decide) (by decide) (by decide)

end TrainLlama
